import Mathlib

/-!
# Verification of the json-explorer chunked map-reduce query engine

Shallow embedding of the core components of the `json_explorer` package
(`chunker.py`, `query_planner.py`, `executor.py`, `aggregator.py`,
`citation.py`, `trace.py`, `core.py`) together with theorems settling the
frozen specification claims.

Conventions used throughout:
* Python `str` is modelled as Lean `String`; Python slicing `s[:n]` is
  `String.take n` (both operate on characters for the ASCII data involved).
* Python integers are `Nat` (all quantities involved are non-negative).
* A fallible completion call `complete(prompt) -> (text, tokens)` is
  modelled as a function `String → Except String (String × Nat)`:
  `.ok (text, tokens)` for a successful call, `.error e` for a raised
  exception whose `str(e)` is `e`.
* Python dataclasses become structures with the same field names.
-/

namespace JsonExplorer

/-- A source record as the chunker consumes it.

`text` is the value of `JsonChunker._format_record(record)` (the chunker
treats the formatted text abstractly: it only measures its length and
concatenates it).  `ts` is `record.get(timestamp_field, "") or ""` (the
empty string when the record has no timestamp, exactly as in the source).
`group_val` is `str(record.get(group_field, "unknown"))` used by
`_chunk_by_field`. -/
structure Rec where
  ts : String := ""
  text : String := ""
  group_val : String := "unknown"
deriving Repr, DecidableEq

/-- `chunker.Chunk`: a chunk of records plus denormalized metadata. -/
structure Chunk where
  index : Nat
  total_chunks : Option Nat := none
  records : List Rec := []
  text_content : String := ""
  record_count : Nat := 0
  start_record_index : Nat := 0
  end_record_index : Nat := 0
  char_count : Nat := 0
  group_key : Option String := none
  group_value : Option String := none
  start_timestamp : Option String := none
  end_timestamp : Option String := none
deriving Repr, DecidableEq

/-- The configuration fields of `chunker.JsonChunker` that the chunking
strategies read.  `hasTsField` models `schema.timestamp_field is not None`. -/
structure JsonChunker where
  max_chunk_size : Nat := 50000
  records_per_chunk : Nat := 100
  overlap : Nat := 0
  hasTsField : Bool := false
deriving Repr

/-- Python `sep.join(parts)`. -/
def joinSep (sep : String) : List String → String
  | [] => ""
  | [a] => a
  | a :: rest => a ++ sep ++ joinSep sep rest

/-- Lexicographic comparison of character lists by code point, exactly
Python's `<=` on `str`. -/
def pyStrLeAux : List Char → List Char → Bool
  | [], _ => true
  | _ :: _, [] => false
  | a :: as, b :: bs =>
    if a < b then true else if b < a then false else pyStrLeAux as bs

/-- Python `a <= b` on strings. -/
def pyStrLe (a b : String) : Bool := pyStrLeAux a.data b.data

/-- Python `s[:n]` on strings (character-based prefix, as is Python's
slicing; identical to `String.take` but defined directly on the character
list). -/
def pySlice (n : Nat) (s : String) : String := String.mk (s.data.take n)

namespace JsonChunker

/-- `JsonChunker._create_chunk`.  `text_content` joins the formatted
records with `"\n\n"`; `end_record_index = start_idx + len(records) - 1`
(truncated `Nat` subtraction; every call site passes nonempty `records`). -/
def create_chunk (c : JsonChunker) (records : List Rec) (index total start_idx : Nat)
    (gk gv : Option String) : Chunk :=
  let text := joinSep "\n\n" (records.map (·.text))
  let tss := if c.hasTsField then (records.map (·.ts)).filter (fun s => s ≠ "") else []
  { index := index
    total_chunks := some total
    records := records
    text_content := text
    record_count := records.length
    start_record_index := start_idx
    end_record_index := start_idx + records.length - 1
    char_count := text.length
    group_key := gk
    group_value := gv
    start_timestamp := tss.min?
    end_timestamp := tss.max? }

/-- Loop of `JsonChunker._chunk_by_records`.  `fuel` dominates the number
of loop iterations (the Python `while` advances `start` by at least one
per iteration whenever `overlap < records_per_chunk`; callers pass
`records.length + 1` which then suffices). -/
def chunk_by_records_go (c : JsonChunker) (records : List Rec) (total : Nat) :
    Nat → Nat → Nat → List Chunk
  | 0, _, _ => []
  | fuel + 1, start, idx =>
    if start < records.length then
      let e := min (start + c.records_per_chunk) records.length
      c.create_chunk ((records.drop start).take (e - start)) idx total start none none ::
        chunk_by_records_go c records total fuel
          (if c.overlap > 0 then e - c.overlap else e) (idx + 1)
    else []

/-- `JsonChunker._chunk_by_records`: fixed number of records per chunk. -/
def chunk_by_records (c : JsonChunker) (records : List Rec) : List Chunk :=
  let total := (records.length + c.records_per_chunk - 1) / c.records_per_chunk
  chunk_by_records_go c records total (records.length + 1) 0 0

/-- Loop of `JsonChunker._chunk_by_size`: walks the records accumulating
`(current_records, current_size, start_idx)` and emits `(records, start)`
pairs.  `i` is the position of the head of the remaining list in the
original record list. -/
def chunk_by_size_go (c : JsonChunker) :
    List Rec → Nat → List Rec → Nat → Nat → List (List Rec × Nat)
  | [], _i, cur, _size, start => if cur = [] then [] else [(cur, start)]
  | r :: rest, i, cur, size, start =>
    let rsize := r.text.length
    if size + rsize > c.max_chunk_size ∧ cur ≠ [] then
      (cur, start) :: chunk_by_size_go c rest (i + 1) [r] rsize i
    else
      chunk_by_size_go c rest (i + 1) (cur ++ [r]) (size + rsize) start

/-- `JsonChunker._chunk_by_size`: chunk by character-size limit on the
total formatted length of the records (the `"\n\n"` join separators are
*not* counted by the limit check, though they do enter `char_count`). -/
def chunk_by_size (c : JsonChunker) (records : List Rec) : List Chunk :=
  let gs := chunk_by_size_go c records 0 [] 0 0
  gs.enum.map (fun p => c.create_chunk p.2.1 p.1 gs.length p.2.2 none none)

/-- The day key `_chunk_by_time` derives from a record:
`ts[:10] if len(ts) >= 10 else ts` when the timestamp is truthy, else
`"unknown"` (note `take 10` returns the whole string when shorter). -/
def dayOf (r : Rec) : String :=
  if r.ts = "" then "unknown" else pySlice 10 r.ts

/-- Insert a record into day groups kept in first-appearance order
(Python `dict` insertion-order semantics). -/
def groupInsert (gs : List (String × List Rec)) (day : String) (r : Rec) :
    List (String × List Rec) :=
  match gs with
  | [] => [(day, [r])]
  | (d, rs) :: rest =>
    if d = day then (d, rs ++ [r]) :: rest else (d, rs) :: groupInsert rest day r

/-- The `groups` dict of `_chunk_by_time`, built over the timestamp-sorted
records. -/
def groupsByDay (records : List Rec) : List (String × List Rec) :=
  records.foldl (fun gs r => groupInsert gs (dayOf r) r) []

/-- Per-group chunk emission of `_chunk_by_time`: a day whose record count
exceeds `records_per_chunk * 2` is sub-chunked via `_chunk_by_records`
(whose `start_record_index` is then *relative to the day group*, and whose
`total_chunks` is the sub-run's own total), with `index`, `group_key` and
`group_value` overwritten; smaller days become one chunk with
`start_idx = 0`. -/
def chunk_by_time_go (c : JsonChunker) (total : Nat) :
    List (String × List Rec) → Nat → List Chunk
  | [], _ => []
  | (day, rs) :: rest, idx =>
    if rs.length > c.records_per_chunk * 2 then
      let subs := (c.chunk_by_records rs).enum.map fun p =>
        { p.2 with index := idx + p.1, group_key := some "date", group_value := some day }
      subs ++ chunk_by_time_go c total rest (idx + subs.length)
    else
      c.create_chunk rs idx total 0 (some "date") (some day) ::
        chunk_by_time_go c total rest (idx + 1)

/-- `JsonChunker._chunk_by_time`: sort records by timestamp, bucket by
truncated day, emit buckets in sorted day order (Python
`sorted(groups.items())` sorts the unique keys lexicographically).
Python's `sorted` is a stable sort, and a stable sort by a key is unique,
so the stable `List.insertionSort` models it exactly.
The caller (`_chunk_array`) only reaches this when
`schema.timestamp_field` is set; the `timestamp_field` guard at the top of
the Python function is therefore represented by `hasTsField = true` at
call sites. -/
def chunk_by_time (c : JsonChunker) (records : List Rec) : List Chunk :=
  let sortedRecords := records.insertionSort (fun a b => pyStrLe a.ts b.ts = true)
  let groups := (groupsByDay sortedRecords).insertionSort (fun a b => pyStrLe a.1 b.1 = true)
  chunk_by_time_go c groups.length groups 0

/-- The `groups` dict of `_chunk_by_field` (insertion order, as in
`_chunk_by_field`, which does not sort its groups; the grouping structure
is identical to `_chunk_by_time`'s so it reuses `groupInsert`). -/
def groupsByField (records : List Rec) : List (String × List Rec) :=
  records.foldl (fun gs r => groupInsert gs r.group_val r) []

/-- Per-group emission of `_chunk_by_field`: every group is passed through
`_chunk_by_size` (so `start_record_index` is relative to the group), with
`index`, `group_key`, `group_value` overwritten. `gf` is the configured
`group_field` name. -/
def chunk_by_field_go (c : JsonChunker) (gf : String) :
    List (String × List Rec) → Nat → List Chunk
  | [], _ => []
  | (v, rs) :: rest, idx =>
    let subs := (c.chunk_by_size rs).enum.map fun p =>
      { p.2 with index := idx + p.1, group_key := some gf, group_value := some v }
    subs ++ chunk_by_field_go c gf rest (idx + subs.length)

/-- `JsonChunker._chunk_by_field`. -/
def chunk_by_field (c : JsonChunker) (gf : String) (records : List Rec) : List Chunk :=
  chunk_by_field_go c gf (groupsByField records) 0

end JsonChunker

/-- The record indices covered by a chunk's record-index range
`start_record_index .. end_record_index` (inclusive on both ends). -/
def Chunk.coveredIndices (ch : Chunk) : List Nat :=
  List.range' ch.start_record_index (ch.end_record_index + 1 - ch.start_record_index)

namespace JsonChunker

lemma flatMap_eq_of_mem {α β : Type _} {l : List α} {f g : α → List β}
    (h : ∀ a ∈ l, f a = g a) : l.flatMap f = l.flatMap g := by
  induction l with
  | nil => rfl
  | cons x xs ih =>
    simp only [List.flatMap_cons, h x (by simp)]
    rw [ih (fun a ha => h a (by simp [ha]))]

lemma enum_flatMap_snd {α β : Type _} (l : List α) (f : α → List β) :
    l.enum.flatMap (fun p => f p.2) = l.flatMap f := by
  have h1 : l.enum.flatMap (fun p => f p.2) = (l.enum.map Prod.snd).flatMap f := by
    rw [List.flatMap_map]
  rw [h1, List.enum_map_snd]

lemma create_chunk_coveredIndices (c : JsonChunker) (records : List Rec)
    (index total start_idx : Nat) (gk gv : Option String) (h : records ≠ []) :
    (c.create_chunk records index total start_idx gk gv).coveredIndices
      = List.range' start_idx records.length := by
  have hlen : 1 ≤ records.length := List.length_pos.mpr h
  simp only [create_chunk, Chunk.coveredIndices]
  congr 1
  omega

lemma create_chunk_records (c : JsonChunker) (records : List Rec)
    (index total start_idx : Nat) (gk gv : Option String) :
    (c.create_chunk records index total start_idx gk gv).records = records := rfl

lemma chunk_by_records_go_cover (c : JsonChunker) (records : List Rec) (total : Nat)
    (hov : c.overlap = 0) (hrpc : 1 ≤ c.records_per_chunk) (fuel : Nat) :
    ∀ start idx, records.length ≤ start + fuel →
      (chunk_by_records_go c records total fuel start idx).flatMap Chunk.coveredIndices
        = List.range' start (records.length - start) := by
  induction fuel with
  | zero =>
    intro start idx h
    have h0 : records.length - start = 0 := by omega
    simp [chunk_by_records_go, h0]
  | succ n ih =>
    intro start idx h
    rw [chunk_by_records_go]
    by_cases hs : start < records.length
    · rw [if_pos hs]
      have he1 : start + 1 ≤ min (start + c.records_per_chunk) records.length := by omega
      have he2 : min (start + c.records_per_chunk) records.length ≤ records.length :=
        min_le_right _ _
      set e := min (start + c.records_per_chunk) records.length with he
      have hlen : ((records.drop start).take (e - start)).length = e - start := by
        rw [List.length_take, List.length_drop]; omega
      have hne : (records.drop start).take (e - start) ≠ [] := by
        intro hz
        rw [hz] at hlen
        simp at hlen
        omega
      rw [List.flatMap_cons, create_chunk_coveredIndices _ _ _ _ _ _ _ hne, hlen, hov]
      rw [if_neg (by omega : ¬ (0:Nat) > 0)]
      rw [ih e (idx + 1) (by omega)]
      have h1 : start + (e - start) = e := by omega
      have := List.range'_append_1 start (e - start) (records.length - e)
      rw [h1] at this
      rw [this]
      congr 1
      omega
    · rw [if_neg hs]
      have h0 : records.length - start = 0 := by omega
      simp [h0]

lemma chunk_by_records_cover (c : JsonChunker) (records : List Rec)
    (hov : c.overlap = 0) (hrpc : 1 ≤ c.records_per_chunk) :
    (c.chunk_by_records records).flatMap Chunk.coveredIndices = List.range records.length := by
  rw [List.range_eq_range']
  have := chunk_by_records_go_cover c records
    ((records.length + c.records_per_chunk - 1) / c.records_per_chunk)
    hov hrpc (records.length + 1) 0 0 (by omega)
  simpa [chunk_by_records] using this

lemma chunk_by_size_go_cover (c : JsonChunker) (rest : List Rec) :
    ∀ i cur size start, i = start + cur.length →
      (chunk_by_size_go c rest i cur size start).flatMap (fun g => List.range' g.2 g.1.length)
        = if cur = [] ∧ rest = [] then [] else List.range' start (cur.length + rest.length) := by
  induction rest with
  | nil =>
    intro i cur size start hinv
    by_cases hc : cur = [] <;> simp [chunk_by_size_go, hc]
  | cons r rest ih =>
    intro i cur size start hinv
    rw [chunk_by_size_go]
    have hrhs : ¬(cur = [] ∧ r :: rest = []) := by simp
    rw [if_neg hrhs]
    by_cases hg : c.max_chunk_size < size + r.text.length ∧ cur ≠ []
    · rw [if_pos hg]
      rw [List.flatMap_cons, ih (i + 1) [r] r.text.length i (by simp)]
      rw [if_neg (by simp)]
      rw [hinv]
      have := List.range'_append_1 start cur.length ([r].length + rest.length)
      rw [this]
      congr 1
      simp
      omega
    · rw [if_neg hg]
      rw [ih (i + 1) (cur ++ [r]) (size + r.text.length) start (by simp; omega)]
      rw [if_neg (by simp)]
      congr 1
      simp
      omega

lemma chunk_by_size_go_ne_nil (c : JsonChunker) (rest : List Rec) :
    ∀ i cur size start g, g ∈ chunk_by_size_go c rest i cur size start → g.1 ≠ [] := by
  induction rest with
  | nil =>
    intro i cur size start g hg
    by_cases hc : cur = []
    · simp [chunk_by_size_go, hc] at hg
    · simp [chunk_by_size_go, hc] at hg
      rw [hg]
      exact hc
  | cons r rest ih =>
    intro i cur size start g hg
    rw [chunk_by_size_go] at hg
    by_cases hcond : c.max_chunk_size < size + r.text.length ∧ cur ≠ []
    · rw [if_pos hcond] at hg
      rcases List.mem_cons.mp hg with h | h
      · rw [h]; exact hcond.2
      · exact ih _ _ _ _ _ h
    · rw [if_neg hcond] at hg
      exact ih _ _ _ _ _ hg

lemma chunk_by_size_cover (c : JsonChunker) (records : List Rec) :
    (c.chunk_by_size records).flatMap Chunk.coveredIndices = List.range records.length := by
  rw [List.range_eq_range']
  unfold chunk_by_size
  rw [List.flatMap_map]
  have hmem : ∀ p ∈ (chunk_by_size_go c records 0 [] 0 0).enum,
      (fun p : Nat × (List Rec × Nat) =>
        (c.create_chunk p.2.1 p.1 (chunk_by_size_go c records 0 [] 0 0).length p.2.2
          none none).coveredIndices) p
        = (fun p : Nat × (List Rec × Nat) => List.range' p.2.2 p.2.1.length) p := by
    intro p hp
    have hp2 : p.2 ∈ chunk_by_size_go c records 0 [] 0 0 := by
      have := List.mem_map_of_mem Prod.snd hp
      rwa [List.enum_map_snd] at this
    exact create_chunk_coveredIndices _ _ _ _ _ _ _ (chunk_by_size_go_ne_nil c records _ _ _ _ _ hp2)
  rw [flatMap_eq_of_mem hmem]
  have h2 := enum_flatMap_snd (chunk_by_size_go c records 0 [] 0 0)
    (fun g : List Rec × Nat => List.range' g.2 g.1.length)
  simp only at h2
  rw [h2]
  rw [chunk_by_size_go_cover c records 0 [] 0 0 (by simp)]
  by_cases h : records = [] <;> simp [h]

lemma chunk_by_records_go_flat (c : JsonChunker) (records : List Rec) (total : Nat)
    (hov : c.overlap = 0) (hrpc : 1 ≤ c.records_per_chunk) (fuel : Nat) :
    ∀ start idx, records.length ≤ start + fuel →
      (chunk_by_records_go c records total fuel start idx).flatMap (·.records)
        = records.drop start := by
  induction fuel with
  | zero =>
    intro start idx h
    rw [chunk_by_records_go, List.flatMap_nil, List.drop_eq_nil_of_le (by omega)]
  | succ n ih =>
    intro start idx h
    rw [chunk_by_records_go]
    by_cases hs : start < records.length
    · rw [if_pos hs]
      have he1 : start + 1 ≤ min (start + c.records_per_chunk) records.length := by omega
      set e := min (start + c.records_per_chunk) records.length with he
      rw [List.flatMap_cons, create_chunk_records, hov]
      rw [if_neg (by omega : ¬ (0:Nat) > 0)]
      rw [ih e (idx + 1) (by omega)]
      have hd : records.drop e = (records.drop start).drop (e - start) := by
        rw [List.drop_drop]
        congr 1
        omega
      rw [hd, List.take_append_drop]
    · rw [if_neg hs]
      rw [List.flatMap_nil, List.drop_eq_nil_of_le (by omega)]

lemma chunk_by_records_flat (c : JsonChunker) (records : List Rec)
    (hov : c.overlap = 0) (hrpc : 1 ≤ c.records_per_chunk) :
    (c.chunk_by_records records).flatMap (·.records) = records := by
  have := chunk_by_records_go_flat c records
    ((records.length + c.records_per_chunk - 1) / c.records_per_chunk)
    hov hrpc (records.length + 1) 0 0 (by omega)
  simpa [chunk_by_records] using this

lemma chunk_by_size_go_flat (c : JsonChunker) (rest : List Rec) :
    ∀ i cur size start,
      (chunk_by_size_go c rest i cur size start).flatMap (·.1) = cur ++ rest := by
  induction rest with
  | nil =>
    intro i cur size start
    by_cases hc : cur = [] <;> simp [chunk_by_size_go, hc]
  | cons r rest ih =>
    intro i cur size start
    rw [chunk_by_size_go]
    by_cases hg : c.max_chunk_size < size + r.text.length ∧ cur ≠ []
    · rw [if_pos hg, List.flatMap_cons, ih]
      simp
    · rw [if_neg hg, ih]
      simp

lemma chunk_by_size_flat (c : JsonChunker) (records : List Rec) :
    (c.chunk_by_size records).flatMap (·.records) = records := by
  unfold chunk_by_size
  rw [List.flatMap_map]
  have h2 := enum_flatMap_snd (chunk_by_size_go c records 0 [] 0 0)
    (fun g : List Rec × Nat => g.1)
  simp only at h2
  rw [show (fun p : Nat × (List Rec × Nat) =>
        (c.create_chunk p.2.1 p.1 (chunk_by_size_go c records 0 [] 0 0).length p.2.2
          none none).records)
      = (fun p : Nat × (List Rec × Nat) => p.2.1) from rfl]
  rw [h2]
  rw [chunk_by_size_go_flat c records 0 [] 0 0]
  rfl

lemma groupInsert_flat (gs : List (String × List Rec)) (day : String) (r : Rec) :
    List.Perm ((groupInsert gs day r).flatMap (·.2)) (gs.flatMap (·.2) ++ [r]) := by
  induction gs with
  | nil => simp [groupInsert]
  | cons g rest ih =>
    obtain ⟨d, rs⟩ := g
    rw [groupInsert]
    by_cases hd : d = day
    · rw [if_pos hd]
      simp only [List.flatMap_cons, List.append_assoc]
      exact List.Perm.append_left rs (List.perm_append_comm)
    · rw [if_neg hd]
      simp only [List.flatMap_cons, List.append_assoc]
      exact List.Perm.append_left rs (ih.trans (by simp))

lemma foldl_groupInsert_flat (key : Rec → String) (records : List Rec) :
    ∀ gs, List.Perm
      ((records.foldl (fun gs r => groupInsert gs (key r) r) gs).flatMap (·.2))
      (gs.flatMap (·.2) ++ records) := by
  induction records with
  | nil => intro gs; simp
  | cons r rest ih =>
    intro gs
    rw [List.foldl_cons]
    refine (ih (groupInsert gs (key r) r)).trans ?_
    refine (List.Perm.append_right rest (groupInsert_flat gs (key r) r)).trans ?_
    simp [List.append_assoc]

lemma groupsByDay_flat (records : List Rec) :
    List.Perm ((groupsByDay records).flatMap (·.2)) records := by
  have := foldl_groupInsert_flat dayOf records []
  simpa [groupsByDay] using this

lemma groupsByField_flat (records : List Rec) :
    List.Perm ((groupsByField records).flatMap (·.2)) records := by
  have := foldl_groupInsert_flat Rec.group_val records []
  simpa [groupsByField] using this

lemma records_update (ch : Chunk) (i : Nat) (gk gv : Option String) :
    ({ ch with index := i, group_key := gk, group_value := gv } : Chunk).records
      = ch.records := rfl

lemma chunk_by_time_go_flat (c : JsonChunker) (total : Nat)
    (hov : c.overlap = 0) (hrpc : 1 ≤ c.records_per_chunk) :
    ∀ groups idx, (chunk_by_time_go c total groups idx).flatMap (·.records)
      = groups.flatMap (·.2) := by
  intro groups
  induction groups with
  | nil => intro idx; rfl
  | cons g rest ih =>
    intro idx
    obtain ⟨day, rs⟩ := g
    by_cases hbig : rs.length > c.records_per_chunk * 2
    · have h2 := enum_flatMap_snd (c.chunk_by_records rs) (fun ch : Chunk => ch.records)
      simp only at h2
      simp only [chunk_by_time_go, if_pos hbig, List.flatMap_append, List.flatMap_map,
        records_update, ih, h2, chunk_by_records_flat c rs hov hrpc, List.flatMap_cons]
    · simp only [chunk_by_time_go, if_neg hbig, List.flatMap_cons, create_chunk_records, ih]

lemma chunk_by_time_flat (c : JsonChunker)
    (hov : c.overlap = 0) (hrpc : 1 ≤ c.records_per_chunk) (records : List Rec) :
    List.Perm ((c.chunk_by_time records).flatMap (·.records)) records := by
  unfold chunk_by_time
  rw [chunk_by_time_go_flat c _ hov hrpc]
  refine List.Perm.trans
    (List.Perm.flatMap_right (fun g : String × List Rec => g.2)
      (List.perm_insertionSort _
        (groupsByDay (records.insertionSort fun a b => pyStrLe a.ts b.ts = true))))
    ?_
  exact (groupsByDay_flat _).trans (List.perm_insertionSort _ records)

lemma chunk_by_field_go_flat (c : JsonChunker) (gf : String) :
    ∀ groups idx, (chunk_by_field_go c gf groups idx).flatMap (·.records)
      = groups.flatMap (·.2) := by
  intro groups
  induction groups with
  | nil => intro idx; rfl
  | cons g rest ih =>
    intro idx
    obtain ⟨v, rs⟩ := g
    have h2 := enum_flatMap_snd (c.chunk_by_size rs) (fun ch : Chunk => ch.records)
    simp only at h2
    simp only [chunk_by_field_go, List.flatMap_append, List.flatMap_map,
      records_update, ih, h2, chunk_by_size_flat c rs, List.flatMap_cons]

lemma chunk_by_field_flat (c : JsonChunker) (gf : String) (records : List Rec) :
    List.Perm ((c.chunk_by_field gf records).flatMap (·.records)) records := by
  unfold chunk_by_field
  rw [chunk_by_field_go_flat c gf]
  exact groupsByField_flat records

lemma joinSep_length (sep : String) : ∀ l : List String, l ≠ [] →
    (joinSep sep l).length = (l.map String.length).sum + sep.length * (l.length - 1) := by
  intro l
  induction l with
  | nil => intro h; exact absurd rfl h
  | cons a rest ih =>
    intro _
    cases rest with
    | nil => simp [joinSep]
    | cons b t =>
      have hlen : (joinSep sep (a :: b :: t)).length
          = a.length + sep.length + (joinSep sep (b :: t)).length := by
        simp [joinSep, String.length_append]
      rw [hlen, ih (by simp)]
      simp only [List.map_cons, List.sum_cons, List.length_cons]
      have h1 : t.length + 1 + 1 - 1 = t.length + 1 := rfl
      have h2 : t.length + 1 - 1 = t.length := rfl
      rw [h1, h2]
      ring

lemma count_flatMap_nat {α : Type _} (x : Nat) (l : List α) (f : α → List Nat) :
    (l.flatMap f).count x = (l.map (fun a => (f a).count x)).sum := by
  induction l with
  | nil => rfl
  | cons a t ih => simp [List.flatMap_cons, List.count_append, ih]

lemma countP_eq_sum_if {α : Type _} (p : α → Bool) (l : List α) :
    l.countP p = (l.map (fun a => if p a then 1 else 0)).sum := by
  induction l with
  | nil => rfl
  | cons a t ih =>
    rw [List.countP_cons, ih]
    simp only [List.map_cons, List.sum_cons]
    by_cases h : p a = true
    · simp [h]
      omega
    · simp [h]

lemma covered_count (ch : Chunk) (x : Nat) :
    (ch.coveredIndices).count x = if x ∈ ch.coveredIndices then 1 else 0 := by
  by_cases h : x ∈ ch.coveredIndices
  · rw [if_pos h]
    exact List.count_eq_one_of_mem (List.nodup_range' _ _) h
  · rw [if_neg h]
    exact List.count_eq_zero.mpr h

lemma chunks_countP_covered {chunks : List Chunk} {n x : Nat}
    (hcov : chunks.flatMap Chunk.coveredIndices = List.range n) (hx : x < n) :
    chunks.countP (fun ch => decide (x ∈ ch.coveredIndices)) = 1 := by
  have h1 : (chunks.flatMap Chunk.coveredIndices).count x = 1 := by
    rw [hcov]
    exact List.count_eq_one_of_mem (List.nodup_range n) (List.mem_range.mpr hx)
  rw [count_flatMap_nat] at h1
  have hmap : chunks.map (fun a => if decide (x ∈ a.coveredIndices) = true then 1 else 0)
      = chunks.map (fun a => (a.coveredIndices).count x) := by
    apply List.map_congr_left
    intro ch _
    rw [covered_count]
    by_cases h : x ∈ ch.coveredIndices <;> simp [h]
  rw [countP_eq_sum_if, hmap, h1]

lemma chunk_by_size_go_oversized_tail (c : JsonChunker) (rest : List Rec) :
    ∀ i r size start, c.max_chunk_size < size →
      ([r], start) ∈ chunk_by_size_go c rest i [r] size start := by
  induction rest with
  | nil => intro i r size start _; simp [chunk_by_size_go]
  | cons x rest ih =>
    intro i r size start h
    rw [chunk_by_size_go]
    rw [if_pos ⟨by omega, by simp⟩]
    exact List.mem_cons_self _ _

lemma chunk_by_size_go_oversized (c : JsonChunker) (rest : List Rec) :
    ∀ i cur size start, i = start + cur.length →
      ∀ pre r post, rest = pre ++ r :: post → c.max_chunk_size < r.text.length →
        ([r], i + pre.length) ∈ chunk_by_size_go c rest i cur size start := by
  induction rest with
  | nil =>
    intro i cur size start _ pre r post habs _
    cases pre <;> simp at habs
  | cons x rest ih =>
    intro i cur size start hinv pre r post heq hover
    cases pre with
    | nil =>
      simp only [List.nil_append] at heq
      obtain ⟨hx, hrest⟩ := List.cons.inj heq
      subst hx
      subst hrest
      rw [chunk_by_size_go]
      by_cases hg : c.max_chunk_size < size + x.text.length ∧ cur ≠ []
      · rw [if_pos hg]
        refine List.mem_cons_of_mem _ ?_
        simpa using chunk_by_size_go_oversized_tail c rest (i + 1) x x.text.length i hover
      · rw [if_neg hg]
        have hcur : cur = [] := by
          by_contra hne
          exact hg ⟨by omega, hne⟩
        subst hcur
        have hstart : start = i := by simpa using hinv.symm
        rw [hstart]
        simpa using chunk_by_size_go_oversized_tail c rest (i + 1) x
          (size + x.text.length) i (by omega)
    | cons p pre' =>
      simp only [List.cons_append] at heq
      obtain ⟨hx, hrest⟩ := List.cons.inj heq
      subst hx
      have harith : i + (x :: pre').length = (i + 1) + pre'.length := by
        simp
        omega
      rw [harith, chunk_by_size_go]
      by_cases hg : c.max_chunk_size < size + x.text.length ∧ cur ≠ []
      · rw [if_pos hg]
        exact List.mem_cons_of_mem _
          (ih (i + 1) [x] x.text.length i (by simp) pre' r post hrest hover)
      · rw [if_neg hg]
        exact ih (i + 1) (cur ++ [x]) (size + x.text.length) start
          (by simp; omega) pre' r post hrest hover

lemma chunk_by_size_oversized (c : JsonChunker) (records pre post : List Rec) (r : Rec)
    (heq : records = pre ++ r :: post) (hover : c.max_chunk_size < r.text.length) :
    ∃ ch ∈ c.chunk_by_size records, ch.records = [r] ∧
      ch.start_record_index = pre.length ∧ ch.end_record_index = pre.length := by
  have hg : ([r], pre.length) ∈ chunk_by_size_go c records 0 [] 0 0 := by
    have := chunk_by_size_go_oversized c records 0 [] 0 0 (by simp) pre r post heq hover
    simpa using this
  have hmem : ([r], pre.length) ∈ (chunk_by_size_go c records 0 [] 0 0).enum.map Prod.snd := by
    rw [List.enum_map_snd]
    exact hg
  obtain ⟨q, hq, hq2⟩ := List.mem_map.mp hmem
  refine ⟨c.create_chunk q.2.1 q.1 (chunk_by_size_go c records 0 [] 0 0).length q.2.2
    none none, ?_, ?_⟩
  · simp only [chunk_by_size]
    exact List.mem_map_of_mem _ hq
  · rw [show q.2.1 = [r] from congrArg Prod.fst hq2,
      show q.2.2 = pre.length from congrArg Prod.snd hq2]
    exact ⟨rfl, rfl, by simp [create_chunk]⟩

/-- A group emitted by `_chunk_by_size` either respects the size bound on
the total formatted record length, or is a single record that alone
exceeds the bound. -/
def sizeOk (c : JsonChunker) (g : List Rec) : Prop :=
  (g.map (fun r => r.text.length)).sum ≤ c.max_chunk_size ∨
    ∃ u, g = [u] ∧ c.max_chunk_size < u.text.length

lemma singleton_sizeOk (c : JsonChunker) (r : Rec) : sizeOk c [r] := by
  by_cases h : r.text.length ≤ c.max_chunk_size
  · left; simpa using h
  · right; exact ⟨r, rfl, by omega⟩

lemma chunk_by_size_go_sizeOk (c : JsonChunker) (rest : List Rec) :
    ∀ i cur size start,
      size = (cur.map (fun r => r.text.length)).sum →
      (cur = [] ∨ sizeOk c cur) →
      ∀ g ∈ chunk_by_size_go c rest i cur size start, sizeOk c g.1 := by
  induction rest with
  | nil =>
    intro i cur size start _ hok g hm
    by_cases hc : cur = []
    · simp [chunk_by_size_go, hc] at hm
    · simp [chunk_by_size_go, hc] at hm
      rw [hm]
      rcases hok with h | h
      · exact absurd h hc
      · exact h
  | cons r rest ih =>
    intro i cur size start hsz hok g hm
    rw [chunk_by_size_go] at hm
    by_cases hg : c.max_chunk_size < size + r.text.length ∧ cur ≠ []
    · rw [if_pos hg] at hm
      rcases List.mem_cons.mp hm with h | h
      · rw [h]
        rcases hok with h0 | h0
        · exact absurd h0 hg.2
        · exact h0
      · exact ih (i + 1) [r] r.text.length i (by simp) (Or.inr (singleton_sizeOk c r)) g h
    · rw [if_neg hg] at hm
      have hcase : ¬(c.max_chunk_size < size + r.text.length) ∨ cur = [] := by
        by_contra hcon
        push_neg at hcon
        exact hg ⟨hcon.1, hcon.2⟩
      rcases hcase with hle | hnil
      · refine ih (i + 1) (cur ++ [r]) (size + r.text.length) start (by simp [hsz]) ?_ g hm
        right
        left
        simp only [List.map_append, List.sum_append, List.map_cons, List.sum_cons,
          List.map_nil, List.sum_nil]
        omega
      · subst hnil
        exact ih (i + 1) ([] ++ [r]) (size + r.text.length) start
          (by simp at hsz; simp [hsz]) (Or.inr (by simpa using singleton_sizeOk c r)) g hm

lemma mem_chunk_by_size_group (c : JsonChunker) (records : List Rec) {ch : Chunk}
    (hm : ch ∈ c.chunk_by_size records) :
    ∃ q ∈ (chunk_by_size_go c records 0 [] 0 0).enum,
      ch = c.create_chunk q.2.1 q.1 (chunk_by_size_go c records 0 [] 0 0).length q.2.2
        none none ∧ q.2 ∈ chunk_by_size_go c records 0 [] 0 0 := by
  simp only [chunk_by_size] at hm
  obtain ⟨q, hq, hfe⟩ := List.mem_map.mp hm
  refine ⟨q, hq, hfe.symm, ?_⟩
  have := List.mem_map_of_mem Prod.snd hq
  rwa [List.enum_map_snd] at this

lemma chunk_by_size_sizeOk (c : JsonChunker) (records : List Rec) :
    ∀ ch ∈ c.chunk_by_size records,
      (ch.records.map (fun u => u.text.length)).sum ≤ c.max_chunk_size ∨
        ∃ u, ch.records = [u] ∧ c.max_chunk_size < u.text.length := by
  intro ch hm
  obtain ⟨q, _, hfe, hq2⟩ := mem_chunk_by_size_group c records hm
  have := chunk_by_size_go_sizeOk c records 0 [] 0 0 rfl (Or.inl rfl) q.2 hq2
  rw [hfe]
  exact this

lemma chunk_by_size_char_count (c : JsonChunker) (records : List Rec) :
    ∀ ch ∈ c.chunk_by_size records,
      ch.char_count = (ch.records.map (fun u => u.text.length)).sum
        + 2 * (ch.records.length - 1) := by
  intro ch hm
  obtain ⟨q, _, hfe, hq2⟩ := mem_chunk_by_size_group c records hm
  have hne : q.2.1 ≠ [] := chunk_by_size_go_ne_nil c records _ _ _ _ _ hq2
  have hne2 : q.2.1.map (·.text) ≠ [] := by
    intro h
    exact hne (List.map_eq_nil_iff.mp h)
  rw [hfe]
  simp only [create_chunk]
  rw [joinSep_length _ _ hne2]
  simp only [List.map_map, List.length_map]
  have hcomp : (String.length ∘ fun x : Rec => x.text) = fun u : Rec => u.text.length := rfl
  have hsep : ("\n\n" : String).length = 2 := rfl
  rw [hcomp, hsep]

end JsonChunker

open JsonChunker in
/-- C2 counterexample: time-bucketed chunking of two records with
timestamps on different days produces two chunks whose record-index
ranges are both `0..0` (group-relative), so the multiset of covered
record indices is `{0, 0}`, not the input range `{0, 1}` — the claim
fails for the time-bucketed strategy. -/
theorem C2_counterexample :
    ¬ List.Perm
      ((({ hasTsField := true } : JsonChunker).chunk_by_time
          [{ ts := "2024-01-01T10:00", text := "a" },
           { ts := "2024-01-02T10:00", text := "b" }]).flatMap
        Chunk.coveredIndices)
      (List.range 2) := by decide

open JsonChunker in
/-- C2 (amended): for every record list and every chunker configuration
with `overlap = 0` and a positive `records_per_chunk`, the concatenation
of the record-index ranges `start_record_index .. end_record_index` over
the chunks produced by the fixed-record-count strategy, and likewise by
the size-bounded strategy, is exactly the full input record-index range
`0 .. n-1`, each index exactly once; for the time-bucketed and the
field-grouped strategies every input record still appears in exactly one
produced chunk's record list (the multiset of records is preserved), but
their stored record-index ranges are relative to each group rather than
to the input collection. -/
theorem C2_theorem (msz rpc : Nat) (hts : Bool) (gf : String) (records : List Rec) :
    let c : JsonChunker :=
      { max_chunk_size := msz, records_per_chunk := rpc + 1, overlap := 0,
        hasTsField := hts }
    ((c.chunk_by_records records).flatMap Chunk.coveredIndices
        = List.range records.length)
    ∧ ((c.chunk_by_size records).flatMap Chunk.coveredIndices
        = List.range records.length)
    ∧ List.Perm ((c.chunk_by_time records).flatMap (·.records)) records
    ∧ List.Perm ((c.chunk_by_field gf records).flatMap (·.records)) records := by
  intro c
  refine ⟨chunk_by_records_cover c records rfl (Nat.succ_le_succ (Nat.zero_le rpc)),
    chunk_by_size_cover c records,
    chunk_by_time_flat c rfl (Nat.succ_le_succ (Nat.zero_le rpc)) records,
    chunk_by_field_flat c gf records⟩

open JsonChunker in
/-- C7 counterexample: with `max_chunk_size = 10` and three records whose
formatted texts are 5 characters each (none oversized), the first emitted
chunk holds two records and its `char_count` is `12 > 10`: the
`"\n\n"` join separators push a chunk past the configured bound even
though no single record exceeds it. -/
theorem C7_counterexample :
    (∀ r ∈ [({ text := "aaaaa" } : Rec), { text := "bbbbb" }, { text := "ccccc" }],
       r.text.length ≤ 10) ∧
    ∃ ch ∈ ({ max_chunk_size := 10 } : JsonChunker).chunk_by_size
        [{ text := "aaaaa" }, { text := "bbbbb" }, { text := "ccccc" }],
      10 < ch.char_count := by decide

open JsonChunker in
/-- C7 (amended): under the size-bounded strategy, a record whose
formatted text alone exceeds `max_chunk_size` forms a chunk containing
exactly that record (neither truncated nor grouped), and the record's
position is covered by exactly one chunk's record-index range; every
produced chunk either keeps the *sum of its records' formatted lengths*
within the bound or is such an oversized singleton — but a chunk's
`char_count` additionally counts the two-character `"\n\n"` separator
between consecutive records, so `char_count` may exceed the bound by up
to `2 * (record_count - 1)`. -/
theorem C7_theorem (c : JsonChunker) (records pre post : List Rec) (r : Rec)
    (heq : records = pre ++ r :: post) (hover : c.max_chunk_size < r.text.length) :
    (∃ ch ∈ c.chunk_by_size records, ch.records = [r] ∧
        ch.start_record_index = pre.length ∧ ch.end_record_index = pre.length)
    ∧ (c.chunk_by_size records).countP
        (fun ch => decide (pre.length ∈ ch.coveredIndices)) = 1
    ∧ (∀ ch ∈ c.chunk_by_size records,
        (ch.records.map (fun u => u.text.length)).sum ≤ c.max_chunk_size ∨
          ∃ u, ch.records = [u] ∧ c.max_chunk_size < u.text.length)
    ∧ (∀ ch ∈ c.chunk_by_size records,
        ch.char_count = (ch.records.map (fun u => u.text.length)).sum
          + 2 * (ch.records.length - 1)) := by
  refine ⟨chunk_by_size_oversized c records pre post r heq hover, ?_,
    chunk_by_size_sizeOk c records, chunk_by_size_char_count c records⟩
  refine chunks_countP_covered (chunk_by_size_cover c records) ?_
  rw [heq]
  simp

open JsonChunker in
/-- Witness for `C7_theorem`: a single 12-character record under a
10-character bound forms its own chunk. -/
theorem C7_witness :
    ∃ ch ∈ ({ max_chunk_size := 10 } : JsonChunker).chunk_by_size
        [{ text := "aaaaabbbbbcc" }],
      ch.records = [{ text := "aaaaabbbbbcc" }] ∧
      ch.start_record_index = List.length ([] : List Rec) ∧
      ch.end_record_index = List.length ([] : List Rec) :=
  (C7_theorem { max_chunk_size := 10 } [{ text := "aaaaabbbbbcc" }] [] []
    { text := "aaaaabbbbbcc" } rfl (by decide)).1

/-! ## Execution trace (`trace.py`) -/

/-- `trace.TraceEventType`. -/
inductive TraceEventType where
  | QUERY_START
  | QUERY_END
  | SCHEMA_ANALYSIS_START
  | SCHEMA_ANALYSIS_END
  | PLAN_START
  | PLAN_END
  | PLAN_DECISION
  | CHUNK_START
  | CHUNK_END
  | CHUNK_SKIP
  | LLM_CALL_START
  | LLM_CALL_END
  | LLM_CALL_ERROR
  | AGGREGATE_START
  | AGGREGATE_END
  | CITATION_EXTRACT
  | CITATION_VERIFY
  | ERROR
  | WARNING
  | INFO
deriving Repr, DecidableEq

/-- `trace.TraceEntry`.  The wall-clock `timestamp` (`datetime.now()`) is
not modelled (it carries no algorithmic content); the structured `data`
payload is kept opaque as an optional string. -/
structure TraceEntry where
  event_type : TraceEventType
  message : String
  data : Option String := none
  duration_ms : Option Nat := none
  tokens_used : Option Nat := none
deriving Repr, DecidableEq

/-- `trace.ExecutionTrace` with its dataclass defaults. -/
structure ExecutionTrace where
  query_id : String := ""
  query : String := ""
  started_at : String := ""
  file_path : Option String := none
  entries : List TraceEntry := []
  total_duration_ms : Option Nat := none
  total_tokens : Nat := 0
  total_llm_calls : Nat := 0
  chunks_processed : Nat := 0
  chunks_skipped : Nat := 0
  citations_found : Nat := 0
  citations_verified : Nat := 0
  unique_authors : Nat := 0
  reference_ids : List String := []
  answer : Option String := none
  error : Option String := none
deriving Repr, DecidableEq

namespace ExecutionTrace

/-- `ExecutionTrace.add_entry`: append the entry, then update the running
totals.  Python's `if tokens_used:` truthiness test adds the token count
only when it is present and nonzero. -/
def add_entry (t : ExecutionTrace) (event_type : TraceEventType) (message : String)
    (data : Option String := none) (duration_ms : Option Nat := none)
    (tokens_used : Option Nat := none) : ExecutionTrace :=
  let entry : TraceEntry :=
    { event_type := event_type, message := message, data := data,
      duration_ms := duration_ms, tokens_used := tokens_used }
  { t with
    entries := t.entries ++ [entry]
    total_tokens :=
      if tokens_used.getD 0 = 0 then t.total_tokens
      else t.total_tokens + tokens_used.getD 0
    total_llm_calls :=
      if event_type = TraceEventType.LLM_CALL_END then t.total_llm_calls + 1
      else t.total_llm_calls
    chunks_processed :=
      if event_type = TraceEventType.CHUNK_END then t.chunks_processed + 1
      else t.chunks_processed
    chunks_skipped :=
      if event_type = TraceEventType.CHUNK_SKIP then t.chunks_skipped + 1
      else t.chunks_skipped }

/-- `ExecutionTrace.log_error`: set the `error` field then append an
ERROR entry with the message. -/
def log_error (t : ExecutionTrace) (error : String)
    (details : Option String := none) : ExecutionTrace :=
  add_entry { t with error := some error } TraceEventType.ERROR error details

/-- `ExecutionTrace.log_query_start` (called by `TraceContext.__enter__`). -/
def log_query_start (t : ExecutionTrace) (query : String)
    (file_path : Option String) : ExecutionTrace :=
  add_entry t TraceEventType.QUERY_START
    ("Starting query: " ++ pySlice 100 query ++ "...")
    (some (query ++ "|" ++ file_path.getD ""))

end ExecutionTrace

/-- The arguments of one `add_entry` call. -/
structure AddEntryArgs where
  event_type : TraceEventType
  message : String
  data : Option String := none
  duration_ms : Option Nat := none
  tokens_used : Option Nat := none
deriving Repr

/-- The `TraceEntry` an `add_entry` call appends. -/
def mkEntry (a : AddEntryArgs) : TraceEntry :=
  { event_type := a.event_type, message := a.message, data := a.data,
    duration_ms := a.duration_ms, tokens_used := a.tokens_used }

/-- Run a sequence of `add_entry` calls against a trace. -/
def applyEntries (t : ExecutionTrace) (calls : List AddEntryArgs) : ExecutionTrace :=
  calls.foldl
    (fun t a => t.add_entry a.event_type a.message a.data a.duration_ms a.tokens_used) t

/-- The running totals of a trace agree with its entry list. -/
def traceConsistent (t : ExecutionTrace) : Prop :=
  t.total_tokens = (t.entries.map (fun e => e.tokens_used.getD 0)).sum
  ∧ t.total_llm_calls
      = t.entries.countP (fun e => decide (e.event_type = TraceEventType.LLM_CALL_END))
  ∧ t.chunks_processed
      = t.entries.countP (fun e => decide (e.event_type = TraceEventType.CHUNK_END))
  ∧ t.chunks_skipped
      = t.entries.countP (fun e => decide (e.event_type = TraceEventType.CHUNK_SKIP))

lemma add_entry_consistent (t : ExecutionTrace) (et : TraceEventType) (msg : String)
    (data : Option String) (dur tok : Option Nat) (h : traceConsistent t) :
    traceConsistent (t.add_entry et msg data dur tok) := by
  obtain ⟨h1, h2, h3, h4⟩ := h
  refine ⟨?_, ?_, ?_, ?_⟩ <;>
    simp only [ExecutionTrace.add_entry, List.map_append, List.sum_append,
      List.countP_append, List.map_cons, List.map_nil, List.sum_cons, List.sum_nil,
      List.countP_cons, List.countP_nil, h1, h2, h3, h4]
  · by_cases hz : tok.getD 0 = 0 <;> simp [hz]
  · by_cases he : et = TraceEventType.LLM_CALL_END <;> simp [he]
  · by_cases he : et = TraceEventType.CHUNK_END <;> simp [he]
  · by_cases he : et = TraceEventType.CHUNK_SKIP <;> simp [he]

lemma applyEntries_consistent (calls : List AddEntryArgs) :
    ∀ t, traceConsistent t → traceConsistent (applyEntries t calls) := by
  induction calls with
  | nil => intro t h; exact h
  | cons a rest ih =>
    intro t h
    exact ih _ (add_entry_consistent t a.event_type a.message a.data a.duration_ms
      a.tokens_used h)

lemma applyEntries_entries (calls : List AddEntryArgs) :
    ∀ t, (applyEntries t calls).entries = t.entries ++ calls.map mkEntry := by
  induction calls with
  | nil => intro t; simp [applyEntries]
  | cons a rest ih =>
    intro t
    rw [show applyEntries t (a :: rest)
        = applyEntries (t.add_entry a.event_type a.message a.data a.duration_ms
            a.tokens_used) rest from rfl]
    rw [ih]
    simp [ExecutionTrace.add_entry, mkEntry]

/-- C9: starting from a freshly constructed `ExecutionTrace` (dataclass
defaults: empty entry list, zero totals), after any sequence of
`add_entry` calls the running totals stay consistent with the entry list:
`total_tokens` is the sum of `tokens_used` over all entries (absent
values counting 0), `total_llm_calls` counts the LLM_CALL_END entries,
`chunks_processed` counts the CHUNK_END entries, `chunks_skipped` counts
the CHUNK_SKIP entries; and against an arbitrary starting trace the entry
list only ever grows by appending the new entries in call order. -/
theorem C9_theorem (qid q st : String) (fp : Option String)
    (t0 : ExecutionTrace) (calls : List AddEntryArgs) :
    (applyEntries t0 calls).entries = t0.entries ++ calls.map mkEntry
    ∧ (let t := applyEntries
        { query_id := qid, query := q, started_at := st, file_path := fp } calls
       t.total_tokens = (t.entries.map (fun e => e.tokens_used.getD 0)).sum
       ∧ t.total_llm_calls
           = t.entries.countP (fun e => decide (e.event_type = TraceEventType.LLM_CALL_END))
       ∧ t.chunks_processed
           = t.entries.countP (fun e => decide (e.event_type = TraceEventType.CHUNK_END))
       ∧ t.chunks_skipped
           = t.entries.countP (fun e => decide (e.event_type = TraceEventType.CHUNK_SKIP))) :=
  ⟨applyEntries_entries calls t0,
   applyEntries_consistent calls
     { query_id := qid, query := q, started_at := st, file_path := fp }
     ⟨rfl, rfl, rfl, rfl⟩⟩

/-! ## Query planner (`query_planner.py`) -/

/-- `query_planner.QueryIntent`. -/
inductive QueryIntent where
  | SEARCH
  | SUMMARIZE
  | COUNT
  | ANALYZE
  | EXTRACT
  | COMPARE
  | TIMELINE
  | EXHAUSTIVE_EXTRACT
deriving Repr, DecidableEq

/-- Helper for Python's `needle in hay` substring test. -/
def containsAux (needle : List Char) : List Char → Bool
  | [] => needle.isEmpty
  | c :: rest => needle.isPrefixOf (c :: rest) || containsAux needle rest

/-- Python `needle in hay` on strings. -/
def pyIn (needle hay : String) : Bool := containsAux needle.data hay.data

/-- Python `s.startswith(prefix)`. -/
def pyStartsWith (hay pre : String) : Bool := pre.data.isPrefixOf hay.data

/-- Python `s.lower()`: ASCII lower-casing character by character (all the
inputs involved are ASCII, where `Char.toLower` agrees with Python). -/
def pyLower (s : String) : String := String.mk (s.data.map Char.toLower)

/-- The `exhaustive_indicators` list of `QueryPlanner._detect_intent`. -/
def exhaustive_indicators : List String :=
  ["what are people saying", "everything about", "all mentions", "every mention",
   "everything said about", "all the discussions", "comprehensive", "exhaustive",
   "each instance", "every single", "all instances", "cite all", "full context"]

/-- The `opinion_patterns` regexes of `_detect_intent`, expanded.  Each
pattern is a finite union of literal strings (the only regex operators
used are non-capturing groups, alternation and `?` on a literal), and
`re.search` of such a pattern succeeds exactly when one of the literals
occurs as a substring, so the expansion is an exact model. -/
def opinion_pattern_alternatives : List String :=
  (["do", "are", "did"].flatMap fun d =>
    (["people", "they", "user", "users", "member", "members"].flatMap fun p =>
      ["say", "think", "mention"].map fun v =>
        "what " ++ d ++ " " ++ p ++ " " ++ v))
  ++ (["opinion ", "opinions "].flatMap fun o =>
        ["on", "about", "regarding"].map fun r => o ++ r)
  ++ (["thought ", "thoughts "].flatMap fun o =>
        ["on", "about", "regarding"].map fun r => o ++ r)
  ++ (["on", "about", "regarding"].map fun r => "feedback " ++ r)
  ++ (["on", "about", "regarding"].map fun r => "discussion " ++ r)

def search_indicators : List String :=
  ["find", "search", "look for", "where", "who said", "mentions"]

def count_indicators : List String :=
  ["how many", "count", "number of", "total"]

def timeline_indicators : List String :=
  ["when", "timeline", "over time", "history", "chronological"]

def compare_indicators : List String :=
  ["compare", "difference", "versus", "vs", "between"]

def extract_indicators : List String :=
  ["extract", "list", "get all", "show me all"]

def summarize_indicators : List String :=
  ["summarize", "summary", "main topics", "what about", "discuss"]

namespace QueryPlanner

/-- `QueryPlanner._detect_intent`: the prioritized pattern match over the
lower-cased query (all the example inputs are ASCII, where Python's
`str.lower` agrees with `Char.toLower`). -/
def detect_intent (query : String) : QueryIntent :=
  let ql := pyLower query
  if exhaustive_indicators.any (fun ind => pyIn ind ql) then
    QueryIntent.EXHAUSTIVE_EXTRACT
  else if opinion_pattern_alternatives.any (fun p => pyIn p ql) then
    QueryIntent.EXHAUSTIVE_EXTRACT
  else if search_indicators.any (fun ind => pyIn ind ql) then
    QueryIntent.SEARCH
  else if count_indicators.any (fun ind => pyIn ind ql) then
    QueryIntent.COUNT
  else if timeline_indicators.any (fun ind => pyIn ind ql) then
    QueryIntent.TIMELINE
  else if compare_indicators.any (fun ind => pyIn ind ql) then
    QueryIntent.COMPARE
  else if extract_indicators.any (fun ind => pyIn ind ql) then
    QueryIntent.EXTRACT
  else if summarize_indicators.any (fun ind => pyIn ind ql) then
    QueryIntent.SUMMARIZE
  else if pyIn "?" query ||
      (["what", "why", "how"].any fun p => pyStartsWith ql p) then
    QueryIntent.ANALYZE
  else
    QueryIntent.SUMMARIZE

end QueryPlanner

/-- C6: the four example queries classify as stated under the prioritized
pattern match of `_detect_intent`: exhaustive-extraction phrasing first,
then search, count, timeline, compare, extract, summarize keyword sets. -/
theorem C6_theorem :
    QueryPlanner.detect_intent "What are people saying about pricing?"
        = QueryIntent.EXHAUSTIVE_EXTRACT
    ∧ QueryPlanner.detect_intent "How many messages mention pricing?"
        = QueryIntent.COUNT
    ∧ QueryPlanner.detect_intent "Compare pricing feedback between channel A and channel B"
        = QueryIntent.COMPARE
    ∧ QueryPlanner.detect_intent "Summarize the discussion"
        = QueryIntent.SUMMARIZE := by
  refine ⟨?_, ?_, ?_, ?_⟩ <;> decide

/-! ## Chunk executor (`executor.py`) -/

/-- `query_planner.FilterCriteria` (the fields the executor reads). -/
structure FilterCriteria where
  keywords : List String := []
  exclude_keywords : List String := []
  author_filter : Option String := none
  channel_filter : Option String := none
deriving Repr, DecidableEq

/-- `query_planner.QueryPlan` (the fields the executor and aggregator
read). -/
structure QueryPlan where
  query : String
  intent : QueryIntent
  filter_criteria : FilterCriteria := {}
  require_full_scan : Bool := false
  chunk_limit : Option Nat := none
  parallel_ok : Bool := true
  chunk_prompt : String := ""
  aggregate_prompt : String := ""
  estimated_chunks : Option Nat := none
deriving Repr

/-- `executor.ChunkResult` (`chunk_metadata`, an opaque trace payload, is
not modelled; `duration_ms`, a wall-clock measurement, is kept only as an
opaque number defaulting to 0). -/
structure ChunkResult where
  chunk_index : Nat
  success : Bool
  content : String
  tokens_used : Nat := 0
  duration_ms : Nat := 0
  was_cached : Bool := false
  was_filtered : Bool := false
deriving Repr, DecidableEq

/-- Truthiness of an optional string (Python: `None` and `""` are falsy). -/
def optTruthy : Option String → Bool
  | none => false
  | some s => s ≠ ""

/-- Truthiness of an optional number (Python: `None` and `0` are falsy). -/
def natOptTruthy : Option Nat → Bool
  | none => false
  | some n => n ≠ 0

/-- `Chunk.to_llm_context` with its default `include_metadata = True`. -/
def Chunk.to_llm_context (ch : Chunk) : String :=
  let p1 := "[Chunk " ++ toString (ch.index + 1)
    ++ (if natOptTruthy ch.total_chunks then " of " ++ toString (ch.total_chunks.getD 0)
        else "")
    ++ " | Records " ++ toString (ch.start_record_index + 1) ++ "-"
    ++ toString (ch.end_record_index + 1) ++ "]"
  let parts := [p1]
    ++ (if optTruthy ch.group_key && optTruthy ch.group_value then
          ["[" ++ ch.group_key.getD "" ++ ": " ++ ch.group_value.getD "" ++ "]"] else [])
    ++ (if optTruthy ch.start_timestamp && optTruthy ch.end_timestamp then
          ["[Time: " ++ ch.start_timestamp.getD "" ++ " to "
            ++ ch.end_timestamp.getD "" ++ "]"] else [])
    ++ [""] ++ [ch.text_content]
  joinSep "\n" parts

/-- The configuration of `executor.ChunkExecutor`: the completion handle
and the constructor parameters. -/
structure ChunkExecutor where
  complete : String → Except String (String × Nat)
  max_parallel : Nat := 4
  cache_enabled : Bool := true
  max_tokens_budget : Option Nat := none

/-- The executor's mutable state: the result cache (`self._cache`, a dict
modelled as an association list whose most recent binding wins) and the
running token counter (`self._tokens_used`). -/
structure ExecState where
  cache : List (String × ChunkResult) := []
  tokens_used : Nat := 0
deriving Repr

namespace ChunkExecutor

/-- `ChunkExecutor._cache_key`: the string
`f"{chunk.index}:{chunk.text_content[:1000]}:{query}"`.  The source hashes
this string with md5 and uses the hex digest as the key; equal composite
strings give equal digests, so using the composite string itself preserves
all cache-hit behaviour (md5 collisions between different composites are
not modelled). -/
def cache_key (chunk : Chunk) (query : String) : String :=
  toString chunk.index ++ ":" ++ pySlice 1000 chunk.text_content ++ ":" ++ query

/-- The prompt `_process_chunk` sends to the completion service. -/
def chunk_prompt_for (plan : QueryPlan) (chunk : Chunk) : String :=
  plan.chunk_prompt ++ "\n\n---\n\n" ++ chunk.to_llm_context

/-- `ChunkExecutor._process_chunk`: cache lookup, completion call,
token accounting and cache store.  A failed call is caught and returned
as an unsuccessful `ChunkResult` with content `"Error: {e}"`. -/
def process_chunk (ex : ChunkExecutor) (st : ExecState) (chunk : Chunk)
    (plan : QueryPlan) : ChunkResult × ExecState :=
  let key := cache_key chunk plan.query
  match (if ex.cache_enabled then st.cache.lookup key else none) with
  | some cached =>
    ({ chunk_index := chunk.index, success := true, content := cached.content,
       was_cached := true }, st)
  | none =>
    match ex.complete (chunk_prompt_for plan chunk) with
    | Except.ok (content, tokens) =>
      let res : ChunkResult :=
        { chunk_index := chunk.index, success := true, content := content,
          tokens_used := tokens }
      (res,
       { cache := if ex.cache_enabled then (key, res) :: st.cache else st.cache,
         tokens_used := st.tokens_used + tokens })
    | Except.error e =>
      ({ chunk_index := chunk.index, success := false, content := "Error: " ++ e },
       { st with tokens_used := st.tokens_used })

/-- The budget test of `_process_sequential`:
`self.max_tokens_budget and self._tokens_used >= self.max_tokens_budget`
(a budget of `None` — and, by Python truthiness, of `0` — disables the
check). -/
def budgetReached (budget : Option Nat) (tokens : Nat) : Bool :=
  match budget with
  | none => false
  | some b => decide (0 < b) && decide (b ≤ tokens)

/-- `ChunkExecutor._process_sequential`: the budget is read before each
dispatch; once reached, the remaining chunks are returned as
`was_filtered` results with content `"Budget exceeded"` and no completion
call is made. -/
def process_sequential (ex : ChunkExecutor) (plan : QueryPlan) :
    List Chunk → ExecState → List ChunkResult × ExecState
  | [], st => ([], st)
  | chunk :: rest, st =>
    if budgetReached ex.max_tokens_budget st.tokens_used then
      let res : ChunkResult :=
        { chunk_index := chunk.index, success := false, content := "Budget exceeded",
          was_filtered := true }
      let more := process_sequential ex plan rest st
      (res :: more.1, more.2)
    else
      let step := process_chunk ex st chunk plan
      let more := process_sequential ex plan rest step.2
      (step.1 :: more.1, more.2)

/-- Process every chunk through `_process_chunk`, threading the shared
cache/token state in submission order. -/
def process_all (ex : ChunkExecutor) (plan : QueryPlan) :
    List Chunk → ExecState → List ChunkResult × ExecState
  | [], st => ([], st)
  | chunk :: rest, st =>
    let step := process_chunk ex st chunk plan
    let more := process_all ex plan rest step.2
    (step.1 :: more.1, more.2)

/-- `ChunkExecutor._process_parallel`: every chunk is submitted to the
worker pool — there is no budget test anywhere on this path — and the
results are collected as the workers finish, then sorted by chunk index
(Python `list.sort` is stable, hence `insertionSort`).  The worker
interleaving only affects the shared cache/token state through the order
in which `_process_chunk` calls run; the model fixes submission order.
The `except` arm around `future.result()` is unreachable here because
`_process_chunk` catches all exceptions itself. -/
def process_parallel (ex : ChunkExecutor) (plan : QueryPlan) (chunks : List Chunk)
    (st : ExecState) : List ChunkResult × ExecState :=
  let ran := process_all ex plan chunks st
  (ran.1.insertionSort (fun a b => a.chunk_index ≤ b.chunk_index), ran.2)

lemma process_sequential_after_budget (ex : ChunkExecutor) (plan : QueryPlan)
    (chunks : List Chunk) : ∀ st,
    budgetReached ex.max_tokens_budget st.tokens_used = true →
      (process_sequential ex plan chunks st).1
          = chunks.map (fun chunk =>
              ({ chunk_index := chunk.index, success := false,
                 content := "Budget exceeded", was_filtered := true } : ChunkResult))
        ∧ (process_sequential ex plan chunks st).2 = st := by
  induction chunks with
  | nil => intro st _; exact ⟨rfl, rfl⟩
  | cons chunk rest ih =>
    intro st hb
    have := ih st hb
    simp only [process_sequential, hb, if_true, List.map_cons]
    exact ⟨by rw [this.1], this.2⟩

lemma process_sequential_length (ex : ChunkExecutor) (plan : QueryPlan)
    (chunks : List Chunk) : ∀ st,
    (process_sequential ex plan chunks st).1.length = chunks.length := by
  induction chunks with
  | nil => intro st; rfl
  | cons chunk rest ih =>
    intro st
    by_cases hb : budgetReached ex.max_tokens_budget st.tokens_used = true
    · simp [process_sequential, hb, ih]
    · simp [process_sequential, eq_false_of_ne_true hb, ih]

lemma process_chunk_tokens_le (ex : ChunkExecutor) (st : ExecState) (chunk : Chunk)
    (plan : QueryPlan) (C : Nat)
    (hC : ∀ p s t, ex.complete p = Except.ok (s, t) → t ≤ C) :
    (process_chunk ex st chunk plan).2.tokens_used ≤ st.tokens_used + C := by
  simp only [process_chunk]
  generalize (if ex.cache_enabled then st.cache.lookup (cache_key chunk plan.query)
      else none) = hit
  cases hit with
  | some cached => exact Nat.le_add_right _ _
  | none =>
    cases hcall : ex.complete (chunk_prompt_for plan chunk) with
    | ok v =>
      obtain ⟨s, t⟩ := v
      have := hC _ _ _ hcall
      show st.tokens_used + t ≤ st.tokens_used + C
      omega
    | error e => exact Nat.le_add_right _ _

lemma process_sequential_overshoot (ex : ChunkExecutor) (plan : QueryPlan)
    (chunks : List Chunk) (b C : Nat)
    (hbdg : ex.max_tokens_budget = some b) (hb0 : 0 < b)
    (hC : ∀ p s t, ex.complete p = Except.ok (s, t) → t ≤ C) : ∀ st,
    (process_sequential ex plan chunks st).2.tokens_used
      ≤ max st.tokens_used (b - 1 + C) := by
  induction chunks with
  | nil => intro st; exact Nat.le_max_left _ _
  | cons chunk rest ih =>
    intro st
    by_cases hr : budgetReached ex.max_tokens_budget st.tokens_used = true
    · have := process_sequential_after_budget ex plan (chunk :: rest) st hr
      rw [this.2]
      exact Nat.le_max_left _ _
    · simp only [process_sequential, eq_false_of_ne_true hr, Bool.false_eq_true,
        if_false]
      have hlt : st.tokens_used < b := by
        unfold budgetReached at hr
        rw [hbdg] at hr
        simp only [Bool.and_eq_true, decide_eq_true_eq] at hr
        by_contra hge
        exact hr ⟨hb0, by omega⟩
      have hstep : (process_chunk ex st chunk plan).2.tokens_used ≤ b - 1 + C := by
        have := process_chunk_tokens_le ex st chunk plan C hC
        omega
      have := ih (process_chunk ex st chunk plan).2
      omega

lemma process_chunk_not_filtered (ex : ChunkExecutor) (st : ExecState) (chunk : Chunk)
    (plan : QueryPlan) : (process_chunk ex st chunk plan).1.was_filtered = false := by
  simp only [process_chunk]
  generalize (if ex.cache_enabled then st.cache.lookup (cache_key chunk plan.query)
      else none) = hit
  cases hit with
  | some cached => rfl
  | none =>
    cases ex.complete (chunk_prompt_for plan chunk) with
    | ok v => obtain ⟨s, t⟩ := v; rfl
    | error e => rfl

lemma process_all_length (ex : ChunkExecutor) (plan : QueryPlan) (chunks : List Chunk) :
    ∀ st, (process_all ex plan chunks st).1.length = chunks.length := by
  induction chunks with
  | nil => intro st; rfl
  | cons chunk rest ih => intro st; simp only [process_all, List.length_cons, ih]

lemma process_all_not_filtered (ex : ChunkExecutor) (plan : QueryPlan)
    (chunks : List Chunk) : ∀ st r, r ∈ (process_all ex plan chunks st).1 →
      r.was_filtered = false := by
  induction chunks with
  | nil => intro st r h; simp [process_all] at h
  | cons chunk rest ih =>
    intro st r h
    simp only [process_all] at h
    rcases List.mem_cons.mp h with h | h
    · rw [h]; exact process_chunk_not_filtered ex st chunk plan
    · exact ih _ r h

lemma process_parallel_length (ex : ChunkExecutor) (plan : QueryPlan)
    (chunks : List Chunk) (st : ExecState) :
    (process_parallel ex plan chunks st).1.length = chunks.length := by
  unfold process_parallel
  rw [(List.perm_insertionSort _ _).length_eq]
  exact process_all_length ex plan chunks st

lemma process_parallel_not_filtered (ex : ChunkExecutor) (plan : QueryPlan)
    (chunks : List Chunk) (st : ExecState) :
    ∀ r ∈ (process_parallel ex plan chunks st).1, r.was_filtered = false := by
  intro r hr
  unfold process_parallel at hr
  have := (List.perm_insertionSort
    (fun a b : ChunkResult => a.chunk_index ≤ b.chunk_index)
    (process_all ex plan chunks st).1).mem_iff.mp hr
  exact process_all_not_filtered ex plan chunks st r this

end ChunkExecutor

set_option maxRecDepth 8000 in
open ChunkExecutor in
/-- C3 counterexample: on the parallel path there is no budget check at
all.  With a token budget of 1 and two chunks whose completion calls cost
10 tokens each, `_process_parallel` dispatches and processes both chunks
(none is marked filtered) and consumes 20 tokens — exceeding the budget
by more than one in-flight call's cost (1 + 10 < 20).  This falsifies the
claim's "in both the sequential and the parallel processing paths". -/
theorem C3_counterexample :
    let ex : ChunkExecutor :=
      { complete := fun _ => Except.ok ("ok", 10), max_tokens_budget := some 1 }
    let plan : QueryPlan := { query := "q", intent := QueryIntent.SEARCH }
    let chunks : List Chunk :=
      [{ index := 0, text_content := "A" }, { index := 1, text_content := "B" }]
    let out := process_parallel ex plan chunks {}
    out.1.length = 2 ∧ (∀ r ∈ out.1, r.success = true ∧ r.was_filtered = false)
      ∧ out.2.tokens_used = 20 ∧ 1 + 10 < out.2.tokens_used := by
  decide

open ChunkExecutor in
/-- C3 (amended): the budget is enforced only on the sequential path.
There, the budget flag is read before each dispatch; once the cumulative
token count has reached a nonzero budget, every remaining chunk is
returned as a `was_filtered` "Budget exceeded" result with no completion
call and no state change; every chunk yields exactly one result; and when
each successful completion call costs at most `C` tokens the cumulative
count never exceeds `(budget - 1) + C` (one in-flight call's overshoot).
The parallel path dispatches every chunk regardless of the budget: it
yields one result per chunk and never marks a result filtered. -/
theorem C3_theorem (ex : ChunkExecutor) (plan : QueryPlan) (chunks : List Chunk)
    (st : ExecState) (b C : Nat) :
    (budgetReached ex.max_tokens_budget st.tokens_used = true →
       (process_sequential ex plan chunks st).1
           = chunks.map (fun chunk =>
               ({ chunk_index := chunk.index, success := false,
                  content := "Budget exceeded", was_filtered := true } : ChunkResult))
         ∧ (process_sequential ex plan chunks st).2 = st)
    ∧ (process_sequential ex plan chunks st).1.length = chunks.length
    ∧ (ex.max_tokens_budget = some b → 0 < b →
        (∀ p s t, ex.complete p = Except.ok (s, t) → t ≤ C) →
        (process_sequential ex plan chunks st).2.tokens_used
          ≤ max st.tokens_used (b - 1 + C))
    ∧ (process_parallel ex plan chunks st).1.length = chunks.length
    ∧ (∀ r ∈ (process_parallel ex plan chunks st).1, r.was_filtered = false) :=
  ⟨process_sequential_after_budget ex plan chunks st,
   process_sequential_length ex plan chunks st,
   fun hbdg hb0 hC => process_sequential_overshoot ex plan chunks b C hbdg hb0 hC st,
   process_parallel_length ex plan chunks st,
   process_parallel_not_filtered ex plan chunks st⟩

open ChunkExecutor in
/-- Witness for `C3_theorem`: a sequential run whose budget is already
reached marks both chunks filtered, and the token count stays within the
overshoot bound. -/
theorem C3_witness :
    let ex : ChunkExecutor :=
      { complete := fun _ => Except.ok ("ok", 10), max_tokens_budget := some 5 }
    let plan : QueryPlan := { query := "q", intent := QueryIntent.SEARCH }
    let chunks : List Chunk :=
      [{ index := 0, text_content := "A" }, { index := 1, text_content := "B" }]
    let st : ExecState := { tokens_used := 7 }
    ((process_sequential ex plan chunks st).1
        = chunks.map (fun chunk =>
            ({ chunk_index := chunk.index, success := false,
               content := "Budget exceeded", was_filtered := true } : ChunkResult))
      ∧ (process_sequential ex plan chunks st).2 = st)
    ∧ (process_sequential ex plan chunks st).2.tokens_used
        ≤ max st.tokens_used (5 - 1 + 10) := by
  intro ex plan chunks st
  have h := C3_theorem ex plan chunks st 5 10
  exact ⟨h.1 (by decide),
    h.2.2.1 rfl (by decide) (fun p s t hp => by
      simp only [ex] at hp
      cases hp
      decide)⟩

open ChunkExecutor in
/-- C10: the cache key of `_process_chunk` depends only on the chunk's
index, the first 1000 characters of its `text_content`, and the query
text; hence with caching enabled, after a successful completion call on
one chunk, processing a second chunk that agrees on index and first 1000
characters (but may differ afterwards) under the same query returns the
first chunk's cached content tagged `was_cached`, not a fresh result for
the second chunk's actual content. -/
theorem C10_theorem (ex : ChunkExecutor) (st : ExecState) (c1 c2 : Chunk)
    (plan : QueryPlan) (content : String) (tokens : Nat)
    (hc : ex.cache_enabled = true)
    (hidx : c1.index = c2.index)
    (hpre : pySlice 1000 c1.text_content = pySlice 1000 c2.text_content)
    (hmiss : st.cache.lookup (cache_key c1 plan.query) = none)
    (hok : ex.complete (chunk_prompt_for plan c1) = Except.ok (content, tokens)) :
    cache_key c1 plan.query = cache_key c2 plan.query
    ∧ (process_chunk ex (process_chunk ex st c1 plan).2 c2 plan).1.was_cached = true
    ∧ (process_chunk ex (process_chunk ex st c1 plan).2 c2 plan).1.content
        = (process_chunk ex st c1 plan).1.content
    ∧ (process_chunk ex st c1 plan).1.content = content := by
  have hkey : cache_key c1 plan.query = cache_key c2 plan.query := by
    unfold cache_key
    rw [hidx, hpre]
  have h1 : process_chunk ex st c1 plan
      = ({ chunk_index := c1.index, success := true, content := content,
            tokens_used := tokens },
         { cache := (cache_key c1 plan.query,
              ({ chunk_index := c1.index, success := true, content := content,
                 tokens_used := tokens } : ChunkResult)) :: st.cache,
           tokens_used := st.tokens_used + tokens }) := by
    unfold process_chunk
    rw [hc]
    simp only [if_true, hmiss, hok, hc]
  have h2 : (process_chunk ex (process_chunk ex st c1 plan).2 c2 plan).1
      = { chunk_index := c2.index, success := true, content := content,
          was_cached := true } := by
    rw [h1]
    unfold process_chunk
    rw [hc]
    simp only [if_true, List.lookup, ← hkey, beq_self_eq_true]
  refine ⟨hkey, ?_, ?_, ?_⟩
  · rw [h2]
  · rw [h2, h1]
  · rw [h1]

set_option maxRecDepth 4000 in
open ChunkExecutor in
/-- Witness for `C10_theorem`: two 1001-character chunks that agree on
their first 1000 characters but differ at the last one collide in the
cache, and the second run returns the first's content from the cache. -/
theorem C10_witness :
    let t1 : String := String.mk (List.replicate 1000 'a' ++ ['b'])
    let t2 : String := String.mk (List.replicate 1000 'a' ++ ['c'])
    let ex : ChunkExecutor := { complete := fun _ => Except.ok ("out", 5) }
    let plan : QueryPlan := { query := "q", intent := QueryIntent.SEARCH }
    let c1 : Chunk := { index := 3, text_content := t1 }
    let c2 : Chunk := { index := 3, text_content := t2 }
    cache_key c1 plan.query = cache_key c2 plan.query
    ∧ (process_chunk ex (process_chunk ex {} c1 plan).2 c2 plan).1.was_cached = true
    ∧ (process_chunk ex (process_chunk ex {} c1 plan).2 c2 plan).1.content
        = (process_chunk ex {} c1 plan).1.content
    ∧ (process_chunk ex {} c1 plan).1.content = "out" := by
  intro t1 t2 ex plan c1 c2
  refine C10_theorem ex {} c1 c2 plan "out" 5 rfl rfl ?_ rfl rfl
  show pySlice 1000 t1 = pySlice 1000 t2
  unfold pySlice
  congr 1

/-! ## Result aggregator (`aggregator.py`) -/

/-- `aggregator.AggregationStrategy`. -/
inductive AggregationStrategy where
  | CONCATENATE
  | SUMMARIZE
  | HIERARCHICAL
  | MERGE
deriving Repr, DecidableEq

/-- `aggregator.AggregationResult`. -/
structure AggregationResult where
  content : String
  strategy_used : AggregationStrategy
  levels_of_aggregation : Nat := 1
  tokens_used : Nat := 0
  source_chunks : List Nat := []
deriving Repr, DecidableEq

/-- The batches `range(0, len(l), k)` slicing produces
(`results[i:i+k]`).  `fuel` bounds the iteration count; callers pass
`l.length`, which suffices for every `k ≥ 1` (for `k = 0` Python's
`range` raises, so that region is not reachable in the source). -/
def batchesGo (k : Nat) : Nat → List α → List (List α)
  | 0, _ => []
  | _ + 1, [] => []
  | fuel + 1, l@(_ :: _) => l.take k :: batchesGo k fuel (l.drop k)

/-- Split a list into consecutive batches of size `k`. -/
def batches (k : Nat) (l : List α) : List (List α) := batchesGo k l.length l

namespace ResultAggregator

/-- The per-result findings block `[Chunk {i+1}]\n{content}` joined with
`"\n\n---\n\n"`, as built by `_hierarchical_aggregate` (and `_summarize`). -/
def findingsText (results : List ChunkResult) : String :=
  joinSep "\n\n---\n\n"
    (results.map (fun r => "[Chunk " ++ toString (r.chunk_index + 1) ++ "]\n" ++ r.content))

/-- The level-1 per-group summarization prompt of
`_hierarchical_aggregate`. -/
def groupPrompt (query : String) (g : List ChunkResult) : String :=
  "Summarize these findings for the query: " ++ query ++ "\n\n" ++ findingsText g
    ++ "\n\nProvide a concise summary preserving key information."

/-- Level 1 of `_hierarchical_aggregate`: summarize each group with one
completion call; a failed call contributes the string
`"Group {i+1} summary failed: {e}"` in place of that group's summary
(*not* the group's input text). -/
def level1Go (complete : String → Except String (String × Nat)) (query : String) :
    List (List ChunkResult) → Nat → Nat → List String × Nat
  | [], _, tok => ([], tok)
  | g :: rest, i, tok =>
    match complete (groupPrompt query g) with
    | Except.ok (content, t) =>
      let more := level1Go complete query rest (i + 1) (tok + t)
      (content :: more.1, more.2)
    | Except.error e =>
      let more := level1Go complete query rest (i + 1) tok
      (("Group " ++ toString (i + 1) ++ " summary failed: " ++ e) :: more.1, more.2)

/-- The intermediate-level combination prompt of the `while` loop. -/
def combinePrompt (query : String) (batch : List String) : String :=
  "Combine these summaries for the query: " ++ query ++ "\n\n"
    ++ joinSep "\n\n---\n\n" batch ++ "\n\nProvide a unified summary."

/-- One pass of the `while` loop body: combine each batch of summaries
with one completion call; a failed call contributes
`"Summary aggregation failed: {e}"` for that batch. -/
def reduceBatch (complete : String → Except String (String × Nat)) (query : String) :
    List (List String) → Nat → List String × Nat
  | [], tok => ([], tok)
  | b :: rest, tok =>
    match complete (combinePrompt query b) with
    | Except.ok (content, t) =>
      let more := reduceBatch complete query rest (tok + t)
      (content :: more.1, more.2)
    | Except.error e =>
      let more := reduceBatch complete query rest tok
      (("Summary aggregation failed: " ++ e) :: more.1, more.2)

/-- The `while len(summaries) > max_results_per_level` loop.  `fuel`
bounds the iterations; callers pass the summary count, which suffices for
every `k ≥ 2` (for `k ≤ 1` the Python loop does not terminate, a region
no caller reaches: `max_results_per_level` defaults to 10). -/
def reduceLoop (complete : String → Except String (String × Nat)) (query : String)
    (k : Nat) : Nat → List String → Nat → Nat → List String × Nat × Nat
  | 0, ss, tok, lv => (ss, tok, lv)
  | fuel + 1, ss, tok, lv =>
    if ss.length > k then
      let step := reduceBatch complete query (batches k ss) tok
      reduceLoop complete query k fuel step.1 step.2 (lv + 1)
    else (ss, tok, lv)

/-- `ResultAggregator._hierarchical_aggregate` (reached with an available
completion handle; without one the source falls back to `_concatenate`
before this point).  `k` is `self.max_results_per_level`. -/
def hierarchical_aggregate (complete : String → Except String (String × Nat))
    (plan : QueryPlan) (k : Nat) (results : List ChunkResult) : AggregationResult :=
  let source_chunks := results.map (·.chunk_index)
  let groups := batches k results
  let l1 := level1Go complete plan.query groups 0 0
  let looped := reduceLoop complete plan.query k l1.1.length l1.1 l1.2 1
  let ss := looped.1
  let tok := looped.2.1
  let levels := looped.2.2
  if ss.length = 1 then
    { content := ss.headD "", strategy_used := AggregationStrategy.HIERARCHICAL,
      levels_of_aggregation := levels, tokens_used := tok,
      source_chunks := source_chunks }
  else
    let combined := joinSep "\n\n---\n\n" ss
    let prompt := plan.aggregate_prompt ++ "\n\nAGGREGATED SUMMARIES:\n\n" ++ combined
      ++ "\n\nProvide the final, comprehensive answer to: " ++ plan.query
    match complete prompt with
    | Except.ok (content, t) =>
      { content := content, strategy_used := AggregationStrategy.HIERARCHICAL,
        levels_of_aggregation := levels + 1, tokens_used := tok + t,
        source_chunks := source_chunks }
    | Except.error e =>
      { content := "Final aggregation failed: " ++ e ++ "\n\n" ++ combined,
        strategy_used := AggregationStrategy.HIERARCHICAL,
        levels_of_aggregation := levels + 1, tokens_used := tok,
        source_chunks := source_chunks }

lemma append_ne_empty (a b : String) (h : a ≠ "") : a ++ b ≠ "" := by
  intro hc
  apply h
  apply String.ext
  have hd : (a ++ b).data = ([] : List Char) := by rw [hc]
  rw [String.data_append] at hd
  exact (List.append_eq_nil.mp hd).1

lemma level1Go_fail (msg query : String) (groups : List (List ChunkResult)) :
    ∀ i tok, level1Go (fun _ => Except.error msg) query groups i tok
      = ((List.range groups.length).map
          (fun j => "Group " ++ toString (i + j + 1) ++ " summary failed: " ++ msg),
         tok) := by
  induction groups with
  | nil => intro i tok; rfl
  | cons g rest ih =>
    intro i tok
    have hhead : level1Go (fun _ => Except.error msg) query (g :: rest) i tok
        = (("Group " ++ toString (i + 1) ++ " summary failed: " ++ msg) ::
            (level1Go (fun _ => Except.error msg) query rest (i + 1) tok).1,
           (level1Go (fun _ => Except.error msg) query rest (i + 1) tok).2) := rfl
    have hmap : (List.range rest.length).map
          (fun j => "Group " ++ toString (i + 1 + j + 1) ++ " summary failed: " ++ msg)
        = (List.range rest.length).map
          ((fun j => "Group " ++ toString (i + j + 1) ++ " summary failed: " ++ msg)
            ∘ Nat.succ) := by
      apply List.map_congr_left
      intro j _
      simp only [Function.comp_apply]
      have harith : i + 1 + j + 1 = i + (j + 1) + 1 := by omega
      rw [harith]
    rw [hhead, ih]
    simp only [List.length_cons, List.range_succ_eq_map, List.map_cons, List.map_map]
    rw [hmap]

lemma reduceBatch_fail_mem (msg query : String) (bs : List (List String)) :
    ∀ tok s, s ∈ (reduceBatch (fun _ => Except.error msg) query bs tok).1 →
      s = "Summary aggregation failed: " ++ msg := by
  induction bs with
  | nil => intro tok s h; simp [reduceBatch] at h
  | cons b rest ih =>
    intro tok s h
    simp only [reduceBatch] at h
    rcases List.mem_cons.mp h with h | h
    · exact h
    · exact ih tok s h

lemma reduceLoop_fail_nonempty (msg query : String) (k : Nat) :
    ∀ fuel ss tok lv, (∀ s ∈ ss, s ≠ "") →
      ∀ s ∈ (reduceLoop (fun _ => Except.error msg) query k fuel ss tok lv).1,
        s ≠ "" := by
  intro fuel
  induction fuel with
  | zero => intro ss tok lv hne s hs; exact hne s hs
  | succ n ih =>
    intro ss tok lv hne s hs
    rw [reduceLoop] at hs
    by_cases hlen : ss.length > k
    · rw [if_pos hlen] at hs
      refine ih _ _ _ ?_ s hs
      intro u hu
      rw [reduceBatch_fail_mem msg query _ _ u hu]
      exact append_ne_empty _ _ (by decide)
    · rw [if_neg hlen] at hs
      exact hne s hs

lemma level1_fail_nonempty (msg query : String) (groups : List (List ChunkResult)) :
    ∀ s ∈ (level1Go (fun _ => Except.error msg) query groups 0 0).1, s ≠ "" := by
  intro s hs
  rw [level1Go_fail] at hs
  obtain ⟨j, _, hj⟩ := List.mem_map.mp hs
  rw [← hj]
  exact append_ne_empty _ _ (append_ne_empty _ _ (append_ne_empty _ _ (by decide)))

end ResultAggregator

open ResultAggregator in
/-- C4 counterexample: a single chunk result with content
`"hello world"` aggregated hierarchically under an always-failing
completion service yields the error string
`"Group 1 summary failed: boom"` — the per-group fallback substitutes an
error message for the group's summary and does *not* concatenate that
level's inputs, so the returned content does not contain the chunk
content at all (while still being returned, not raised). -/
theorem C4_counterexample :
    let plan : QueryPlan :=
      { query := "q", intent := QueryIntent.SUMMARIZE, aggregate_prompt := "agg" }
    let res : ChunkResult :=
      { chunk_index := 0, success := true, content := "hello world" }
    let agg := hierarchical_aggregate (fun _ => Except.error "boom") plan 10 [res]
    agg.content = "Group 1 summary failed: boom"
      ∧ pyIn "hello world" agg.content = false := by
  decide

open ResultAggregator in
/-- C4 (amended): hierarchical aggregation never raises — it returns an
`AggregationResult` for every completion outcome — and with an
always-failing completion service it returns non-empty content on every
non-empty input; but a failure of a level-1 per-group call contributes
the string `"Group {i+1} summary failed: {e}"` in place of that group's
summary rather than the concatenation of that group's inputs (so with a
single group the final content is exactly `"Group 1 summary failed: {e}"`
and the chunk contents are lost); only the final synthesis call falls
back to concatenating its direct inputs (the level summaries, prefixed
with `"Final aggregation failed: {e}"`). -/
theorem C4_theorem (plan : QueryPlan) (msg : String) (k : Nat) (r : ChunkResult)
    (rs : List ChunkResult) :
    let failC : String → Except String (String × Nat) := fun _ => Except.error msg
    let agg := hierarchical_aggregate failC plan k (r :: rs)
    agg.content ≠ ""
    ∧ (level1Go failC plan.query (batches k (r :: rs)) 0 0).1
        = (List.range (batches k (r :: rs)).length).map
            (fun j => "Group " ++ toString (j + 1) ++ " summary failed: " ++ msg)
    ∧ (1 ≤ k → (batches k (r :: rs)).length = 1 →
        agg.content = "Group 1 summary failed: " ++ msg) := by
  intro failC agg
  have hl1 := level1Go_fail msg plan.query (batches k (r :: rs)) 0 0
  have hl1' : (level1Go failC plan.query (batches k (r :: rs)) 0 0).1
      = (List.range (batches k (r :: rs)).length).map
          (fun j => "Group " ++ toString (j + 1) ++ " summary failed: " ++ msg) := by
    rw [hl1]
    apply List.map_congr_left
    intro j _
    rw [Nat.zero_add]
  refine ⟨?_, hl1', ?_⟩
  · have hne : ∀ s ∈ (reduceLoop failC plan.query k
        (level1Go failC plan.query (batches k (r :: rs)) 0 0).1.length
        (level1Go failC plan.query (batches k (r :: rs)) 0 0).1
        (level1Go failC plan.query (batches k (r :: rs)) 0 0).2 1).1, s ≠ "" :=
      reduceLoop_fail_nonempty msg plan.query k _ _ _ _
        (level1_fail_nonempty msg plan.query (batches k (r :: rs)))
    show (hierarchical_aggregate failC plan k (r :: rs)).content ≠ ""
    unfold hierarchical_aggregate
    simp only
    by_cases hone : (reduceLoop failC plan.query k
        (level1Go failC plan.query (batches k (r :: rs)) 0 0).1.length
        (level1Go failC plan.query (batches k (r :: rs)) 0 0).1
        (level1Go failC plan.query (batches k (r :: rs)) 0 0).2 1).1.length = 1
    · rw [if_pos hone]
      obtain ⟨x, hx⟩ := List.length_eq_one.mp hone
      rw [hx]
      exact hne x (by rw [hx]; exact List.mem_singleton_self x)
    · rw [if_neg hone]
      exact append_ne_empty _ _ (append_ne_empty _ _ (append_ne_empty _ _ (by decide)))
  · intro hk hone
    obtain ⟨g, hg⟩ := List.length_eq_one.mp hone
    show (hierarchical_aggregate failC plan k (r :: rs)).content
      = "Group 1 summary failed: " ++ msg
    have hl1g : level1Go failC plan.query (batches k (r :: rs)) 0 0
        = (["Group 1 summary failed: " ++ msg], 0) := by
      rw [hg]
      rfl
    have hloop : reduceLoop failC plan.query k
        (level1Go failC plan.query (batches k (r :: rs)) 0 0).1.length
        (level1Go failC plan.query (batches k (r :: rs)) 0 0).1
        (level1Go failC plan.query (batches k (r :: rs)) 0 0).2 1
        = (["Group 1 summary failed: " ++ msg], 0, 1) := by
      rw [hl1g]
      show reduceLoop failC plan.query k 1 ["Group 1 summary failed: " ++ msg] 0 1 = _
      rw [reduceLoop]
      rw [if_neg (by simp; omega)]
    unfold hierarchical_aggregate
    simp only [hloop]
    rfl

open ResultAggregator in
/-- Witness for `C4_theorem` at a concrete input: one chunk result, batch
size 10, error message `"boom"`. -/
theorem C4_witness :
    (hierarchical_aggregate (fun _ => Except.error "boom")
        { query := "q", intent := QueryIntent.SUMMARIZE } 10
        [{ chunk_index := 0, success := true, content := "hello world" }]).content ≠ ""
    ∧ (hierarchical_aggregate (fun _ => Except.error "boom")
        { query := "q", intent := QueryIntent.SUMMARIZE } 10
        [{ chunk_index := 0, success := true, content := "hello world" }]).content
        = "Group 1 summary failed: " ++ "boom" := by
  have h := C4_theorem { query := "q", intent := QueryIntent.SUMMARIZE } "boom" 10
    { chunk_index := 0, success := true, content := "hello world" } []
  exact ⟨h.1, h.2.2 (by decide) (by decide)⟩

/-! ## Citations (`citation.py`)

The extractor parses chunk outputs with Python regexes.  The embedding
uses a small backtracking regular-expression engine over character lists:
the constructs the source's patterns use (literals, character classes,
greedy `*`/`+`/`?`, lazy `+?`, alternation, groups, `$`) are implemented
with Python's leftmost / greedy / lazy backtracking semantics, and
`finditer`'s non-overlapping successive-search behaviour is reproduced. -/

/-- Regular expressions over characters. -/
inductive RE where
  | eps
  | eos
  | cls (p : Char → Bool)
  | seq (a b : RE)
  | alt (a b : RE)
  | starG (a : RE)
  | plusG (a : RE)
  | plusL (a : RE)
  | optG (a : RE)
  | group (n : Nat) (a : RE)

/-- Captured groups: group number to captured characters (most recent
binding first). -/
abbrev Caps := List (Nat × List Char)

/-- The size of a regex (used only to pick a sufficient fuel). -/
def reSize : RE → Nat
  | RE.eps => 1
  | RE.eos => 1
  | RE.cls _ => 1
  | RE.seq a b => 1 + reSize a + reSize b
  | RE.alt a b => 1 + reSize a + reSize b
  | RE.starG a => 1 + reSize a
  | RE.plusG a => 1 + reSize a
  | RE.plusL a => 1 + reSize a
  | RE.optG a => 1 + reSize a
  | RE.group _ a => 1 + reSize a

/-- CPS backtracking matcher, structurally recursive on a fuel that every
call decrements.  Along any call chain the fuel decreases once per regex
node entered and once per quantifier iteration, and each quantifier
iteration of the patterns used here consumes at least one character, so
`bigFuel` below (linear in input length plus pattern size, with slack)
never runs out and the engine computes Python's leftmost / greedy / lazy
backtracking semantics exactly. -/
def matchRE : Nat → RE → List Char → Caps →
    (List Char → Caps → Option (List Char × Caps)) → Option (List Char × Caps)
  | 0, _, _, _, _ => none
  | fuel + 1, re, s, caps, k =>
    match re with
    | RE.eps => k s caps
    | RE.eos => if s.isEmpty then k s caps else none
    | RE.cls p =>
      match s with
      | [] => none
      | c :: rest => if p c then k rest caps else none
    | RE.seq a b =>
      matchRE fuel a s caps (fun s2 caps2 => matchRE fuel b s2 caps2 k)
    | RE.alt a b =>
      (matchRE fuel a s caps k).orElse (fun _ => matchRE fuel b s caps k)
    | RE.optG a =>
      (matchRE fuel a s caps k).orElse (fun _ => k s caps)
    | RE.starG a =>
      (matchRE fuel a s caps (fun s2 caps2 =>
          if s2.length < s.length then matchRE fuel (RE.starG a) s2 caps2 k
          else none)).orElse
        (fun _ => k s caps)
    | RE.plusG a =>
      matchRE fuel a s caps (fun s2 caps2 =>
        if s2.length < s.length then
          (matchRE fuel (RE.plusG a) s2 caps2 k).orElse (fun _ => k s2 caps2)
        else k s2 caps2)
    | RE.plusL a =>
      matchRE fuel a s caps (fun s2 caps2 =>
        (k s2 caps2).orElse (fun _ =>
          if s2.length < s.length then matchRE fuel (RE.plusL a) s2 caps2 k
          else none))
    | RE.group n a =>
      matchRE fuel a s caps (fun s2 caps2 =>
        k s2 ((n, s.take (s.length - s2.length)) :: caps2))

/-- Ample fuel for matching `re` against `s` (see `matchRE`). -/
def bigFuel (re : RE) (s : List Char) : Nat := 4 * (s.length + reSize re + 4)

/-- Leftmost search (`re.search`): try a match at each successive start
offset.  Returns the start offset, the unconsumed suffix and the
captures. -/
def searchAux (re : RE) : List Char → Nat → Option (Nat × List Char × Caps)
  | s, pos =>
    match matchRE (bigFuel re s) re s [] (fun s2 caps => some (s2, caps)) with
    | some (s2, caps) => some (pos, s2, caps)
    | none =>
      match s with
      | [] => none
      | _ :: rest => searchAux re rest (pos + 1)

/-- `re.finditer`: non-overlapping successive leftmost matches; each
entry is `(startAbs, endAbs, caps)` with positions absolute in the
original input.  Every pattern used here matches at least one character,
and the zero-progress guard only stops what would otherwise be an
infinite loop of empty matches. -/
def finditerGo (re : RE) : Nat → List Char → Nat → List (Nat × Nat × Caps)
  | 0, _, _ => []
  | fuel + 1, s, base =>
    match searchAux re s 0 with
    | none => []
    | some (off, s2, caps) =>
      let consumed := (s.length - off) - s2.length
      if consumed = 0 then []
      else (base + off, base + off + consumed, caps) ::
        finditerGo re fuel s2 (base + off + consumed)

/-- `re.finditer` over a string. -/
def finditer (re : RE) (s : String) : List (Nat × Nat × Caps) :=
  finditerGo re (s.length + 1) s.data 0

/-- Fold a nonempty list of regexes with `seq`. -/
def seqAll : List RE → RE
  | [] => RE.eps
  | [a] => a
  | a :: rest => RE.seq a (seqAll rest)

/-- A case-sensitive literal. -/
def lit (s : String) : RE := seqAll (s.data.map (fun c => RE.cls (fun d => d = c)))

/-- A literal under `re.IGNORECASE` (ASCII case folding, which is what
the patterns here need). -/
def litCI (s : String) : RE :=
  seqAll (s.data.map (fun c => RE.cls (fun d => d.toLower = c.toLower)))

/-- Python `\s` (ASCII whitespace, sufficient for the inputs here). -/
def isPySpace (c : Char) : Bool :=
  c = ' ' || c = '\t' || c = '\n' || c = '\x0d' || c = '\x0c' || c = '\x0b'

def clsSpace : RE := RE.cls isPySpace

def clsDigit : RE := RE.cls (fun c => c.isDigit)

/-- `.` under `re.DOTALL`. -/
def dotAll : RE := RE.cls (fun _ => true)

/-- `.` without `DOTALL` (anything but a newline). -/
def dotNoNL : RE := RE.cls (fun c => c ≠ '\n')

/-- The `["\']` class. -/
def clsQuote : RE := RE.cls (fun c => c = '"' || c = '\'')

/-- `citation.Sentiment`. -/
inductive Sentiment where
  | POSITIVE
  | NEGATIVE
  | NEUTRAL
  | MIXED
deriving Repr, DecidableEq

/-- `citation.Citation` (after `__post_init__`): `relevance_score`, a
float that no modelled code path reads or writes away from its 0.0
default, is omitted. -/
structure Citation where
  quote : String
  author : Option String := none
  timestamp : Option String := none
  channel : Option String := none
  message_id : Option String := none
  chunk_index : Nat := 0
  record_index : Nat := 0
  file_path : Option String := none
  context_before : Option String := none
  context_after : Option String := none
  sentiment : Sentiment := Sentiment.NEUTRAL
  key_insight : Option String := none
deriving Repr, DecidableEq

/-- Python `s.strip()` (whitespace from both ends). -/
def pyStrip (s : String) : String :=
  String.mk (((s.data.dropWhile isPySpace).reverse.dropWhile isPySpace).reverse)

/-- Python `s.strip(chars)` for a character set. -/
def pyStripChars (p : Char → Bool) (s : String) : String :=
  String.mk (((s.data.dropWhile p).reverse.dropWhile p).reverse)

/-- `Citation.__post_init__`: strip the quote, then peel one symmetric
pair of double quotes. -/
def postInitQuote (q : String) : String :=
  let q := pyStrip q
  if q.data.head? = some '"' ∧ q.data.getLast? = some '"' then
    String.mk ((q.data.drop 1).dropLast)
  else q

/-- `Citation.reference_id`: `f"{chunk_index}.{record_index}"`. -/
def Citation.reference_id (c : Citation) : String :=
  toString c.chunk_index ++ "." ++ toString c.record_index

/-- `CitationExtractor.extract_from_response`'s `finding_pattern`
`'###\s*(?:Finding|Citation)\s*\d+\s*\n+>\s*["\']?(.+?)["\']?\s*\n+\*\*Source:\*\*\s*(.+?)\n'`
compiled with `re.DOTALL | re.IGNORECASE`. -/
def findingRE : RE := seqAll
  [lit "###",
   RE.starG clsSpace,
   RE.alt (litCI "Finding") (litCI "Citation"),
   RE.starG clsSpace,
   RE.plusG clsDigit,
   RE.starG clsSpace,
   RE.plusG (lit "\n"),
   lit ">",
   RE.starG clsSpace,
   RE.optG clsQuote,
   RE.group 1 (RE.plusL dotAll),
   RE.optG clsQuote,
   RE.starG clsSpace,
   RE.plusG (lit "\n"),
   litCI "**Source:**",
   RE.starG clsSpace,
   RE.group 2 (RE.plusL dotAll),
   lit "\n"]

/-- The fallback `blockquote_pattern` `'>\s*["\']?(.+?)["\']?\s*\n'`
(no flags: `.` does not match a newline). -/
def blockquoteRE : RE := seqAll
  [lit ">",
   RE.starG clsSpace,
   RE.optG clsQuote,
   RE.group 1 (RE.plusL dotNoNL),
   RE.optG clsQuote,
   RE.starG clsSpace,
   lit "\n"]

/-- The insight pattern `'\*\*(?:Key\s*)?Insight:\*\*\s*(.+?)(?:\n|$)'`
(no flags). -/
def insightRE : RE := seqAll
  [lit "**",
   RE.optG (RE.seq (lit "Key") (RE.starG clsSpace)),
   lit "Insight:**",
   RE.starG clsSpace,
   RE.group 1 (RE.plusL dotNoNL),
   RE.alt (lit "\n") RE.eos]

/-- `re.match` (anchored at the start of the string). -/
def reMatchStart (re : RE) (s : String) : Bool :=
  (matchRE (bigFuel re s.data) re s.data [] (fun s2 caps => some (s2, caps))).isSome

/-- Four digits followed by a dash or slash (the source's first
timestamp pattern). -/
def tsDateRE : RE := seqAll
  [clsDigit, clsDigit, clsDigit, clsDigit, RE.cls (fun c => c = '-' || c = '/')]

/-- `'\d{1,2}:\d{2}'`. -/
def tsTimeRE : RE := seqAll
  [clsDigit, RE.optG clsDigit, lit ":", clsDigit, clsDigit]

/-- Python `s.split(sep)` for a one-character separator (keeps empty
fields, as Python does). -/
def pySplitChar (sep : Char) (s : String) : List String :=
  (s.data.foldr
    (fun c acc =>
      match acc with
      | [] => [[c]]
      | cur :: done => if c = sep then [] :: cur :: done else (c :: cur) :: done)
    [[]]).map String.mk

/-- The `for part in source_parts` loop of `extract_from_response`:
assign author/channel/timestamp from each pipe-delimited token, later
tokens overwriting earlier ones. -/
def parseSourceParts (parts : List String) :
    Option String × Option String × Option String :=
  parts.foldl
    (fun acc part =>
      if pyStartsWith part "@" then
        (some (String.mk (part.data.drop 1)), acc.2.1, acc.2.2)
      else if pyIn "#" part then
        (acc.1, acc.2.1,
         some (pyStrip (String.mk (part.data.filter (fun c => c ≠ '#')))))
      else if reMatchStart tsDateRE part || reMatchStart tsTimeRE part then
        (acc.1, some part, acc.2.2)
      else acc)
    (none, none, none)

/-- The sentiment scan over `response[match.end() : match.end()+200].lower()`. -/
def sentimentFrom (window : String) : Sentiment :=
  let w := pyLower window
  if pyIn "positive" w then Sentiment.POSITIVE
  else if pyIn "negative" w then Sentiment.NEGATIVE
  else if pyIn "mixed" w then Sentiment.MIXED
  else Sentiment.NEUTRAL

/-- The insight search over `response[match.end() : match.end()+500]`. -/
def insightFrom (window : String) : Option String :=
  match searchAux insightRE window.data 0 with
  | some (_, _, caps) =>
    match caps.lookup 1 with
    | some cs => some (pyStrip (String.mk cs))
    | none => none
  | none => none

/-- The structured-format phase of
`CitationExtractor.extract_from_response`: one `Citation` per
`finding_pattern` match, in match order, with `record_index` set from the
running `record_idx` counter — i.e. the ordinal position of the finding
in the response text, not anything read from the response. -/
def structuredCitations (response : String) (chunk_index : Nat)
    (file_path : Option String) : List Citation :=
  (finditer findingRE response).enum.map (fun p =>
    let endAbs := p.2.2.1
    let caps := p.2.2.2
    let quote := pyStripChars (fun c => c = '"' || c = '\'')
      (pyStrip (String.mk ((caps.lookup 1).getD [])))
    let source_line := pyStrip (String.mk ((caps.lookup 2).getD []))
    let parts := (pySplitChar '|' source_line).map pyStrip
    let atc := parseSourceParts parts
    { quote := postInitQuote quote
      author := atc.1
      timestamp := atc.2.1
      channel := atc.2.2
      chunk_index := chunk_index
      record_index := p.1
      file_path := file_path
      sentiment := sentimentFrom (String.mk ((response.data.drop endAbs).take 200))
      key_insight := insightFrom (String.mk ((response.data.drop endAbs).take 500)) })

/-- The fallback phase: bare blockquote lines; quotes of more than 10
characters are kept, with `record_index` the *enumeration index over all
blockquote matches* (skipped short quotes still advance it). -/
def fallbackCitations (response : String) (chunk_index : Nat)
    (file_path : Option String) : List Citation :=
  (finditer blockquoteRE response).enum.filterMap (fun p =>
    let quote := pyStrip (String.mk ((p.2.2.2.lookup 1).getD []))
    if 10 < quote.length then
      some { quote := postInitQuote quote, chunk_index := chunk_index,
             record_index := p.1, file_path := file_path }
    else none)

/-- `CitationExtractor.extract_from_response`. -/
def extract_from_response (response : String) (chunk_index : Nat)
    (file_path : Option String) : List Citation :=
  let citations := structuredCitations response chunk_index file_path
  if citations.isEmpty then fallbackCitations response chunk_index file_path
  else citations

/-- `citation.CitationReport`.  The `sentiment_breakdown` dict is split
into four counters; `generated_at` (a wall-clock stamp) is omitted. -/
structure CitationReport where
  query : String
  file_path : Option String := none
  citations : List Citation := []
  total_found : Nat := 0
  unique_authors : Nat := 0
  sentiment_positive : Nat := 0
  sentiment_negative : Nat := 0
  sentiment_neutral : Nat := 0
  sentiment_mixed : Nat := 0
  verified : Bool := false
  verification_issues : List String := []
deriving Repr, DecidableEq

/-- Python `s.split()` (split on whitespace runs, dropping empties). -/
def pySplitWs (s : String) : List String :=
  ((s.data.foldr
    (fun c acc =>
      match acc with
      | [] => if isPySpace c then [] else [[c]]
      | cur :: done =>
        if isPySpace c then
          if cur = [] then acc else [] :: cur :: done
        else (c :: cur) :: done)
    []).filter (fun w => w ≠ [])).map String.mk

/-- `set(s.lower().split())`. -/
def wordSet (s : String) : List String := (pySplitWs (pyLower s)).dedup

/-- `len(quote_words & content_words)` for a citation against the record
its `record_index` addresses. -/
def interCount (data : List String) (c : Citation) : Nat :=
  ((wordSet c.quote).filter (fun w => w ∈ wordSet (data.getD c.record_index ""))).length

/-- The overlap test of `CitationReport.verify`:
`overlap > 0.5` with `overlap = |quote∩content| / |quote|` (and 0 for an
empty quote-word set), i.e. `|quote| < 2·|intersection|`.  The Python
float quotient is exactly representable at the 0.5 boundary, so the
strict comparison agrees with this integer form for any realistic word
counts. -/
def quoteOverlapPasses (data : List String) (c : Citation) : Bool :=
  decide (wordSet c.quote ≠ []) &&
    decide ((wordSet c.quote).length < 2 * interCount data c)

/-- A citation passes verification iff its record index is in range and
the strict 50% overlap test succeeds. -/
def citationPasses (data : List String) (c : Citation) : Bool :=
  decide (c.record_index < data.length) && quoteOverlapPasses data c

/-- The issue line `verify` records for a failing citation (none for a
passing one). -/
def issueOf (data : List String) (c : Citation) : Option String :=
  if c.record_index < data.length then
    if quoteOverlapPasses data c then none
    else some ("Ref " ++ c.reference_id ++ ": Quote not found in record")
  else some ("Ref " ++ c.reference_id ++ ": Record index out of range")

/-- `CitationReport.verify`: walk the citations, count the ones whose
quote passes the strict overlap test against `data[record_index]`, and
collect an issue line for each failing one; `verified` becomes whether
every citation passed.  `data` holds each record's resolved content text
(`record.get(content_field, str(record))`).  The `except` branch of the
source is unreachable here because `reference_id` always parses back into
its two integers. -/
def verifyStep (data : List String) (acc : Nat × List String) (c : Citation) :
    Nat × List String :=
  if c.record_index < data.length then
    if quoteOverlapPasses data c then (acc.1 + 1, acc.2)
    else (acc.1, acc.2 ++ ["Ref " ++ c.reference_id ++ ": Quote not found in record"])
  else (acc.1, acc.2 ++ ["Ref " ++ c.reference_id ++ ": Record index out of range"])

def CitationReport.verify (rep : CitationReport) (data : List String) :
    CitationReport :=
  let step := rep.citations.foldl (verifyStep data) (0, [])
  { rep with verified := decide (step.1 = rep.citations.length),
             verification_issues := step.2 }

lemma verifyStep_eq (data : List String) (acc : Nat × List String) (c : Citation) :
    verifyStep data acc c
      = (acc.1 + (if citationPasses data c then 1 else 0),
         acc.2 ++ (issueOf data c).toList) := by
  unfold verifyStep citationPasses issueOf
  by_cases h1 : c.record_index < data.length
  · by_cases h2 : quoteOverlapPasses data c = true
    · simp [h1, h2]
    · simp [h1, h2, eq_false_of_ne_true h2]
  · simp [h1]

lemma verify_foldl (data : List String) (cs : List Citation) :
    ∀ v0 is0,
      cs.foldl (verifyStep data) (v0, is0)
        = (v0 + cs.countP (citationPasses data),
           is0 ++ cs.filterMap (issueOf data)) := by
  induction cs with
  | nil => intro v0 is0; simp
  | cons c rest ih =>
    intro v0 is0
    rw [List.foldl_cons, verifyStep_eq, ih, List.countP_cons, List.filterMap_cons]
    by_cases h : citationPasses data c = true
    · have hissue : issueOf data c = none := by
        unfold citationPasses at h
        unfold issueOf
        simp only [Bool.and_eq_true, decide_eq_true_eq] at h
        simp [h.1, h.2]
      simp only [h, if_true, hissue, Option.toList_none, List.append_nil,
        Prod.mk.injEq]
      exact ⟨by omega, trivial⟩
    · have hfail : citationPasses data c = false := eq_false_of_ne_true h
      have hissue : ∃ msg, issueOf data c = some msg := by
        unfold citationPasses at hfail
        unfold issueOf
        by_cases h1 : c.record_index < data.length
        · rw [decide_eq_true h1, Bool.true_and] at hfail
          simp [h1, hfail]
        · simp [h1]
      obtain ⟨msg, hmsg⟩ := hissue
      simp only [hfail, Bool.false_eq_true, if_false, hmsg, Option.toList_some,
        Prod.mk.injEq]
      exact ⟨by omega, by simp [List.append_assoc]⟩

/-- C8 counterexample: a quote of two words whose intersection with the
addressed record's content is exactly one word has word-overlap exactly
50%, which the claim says "counts as verified" — but the code requires
`overlap > 0.5` strictly, so the citation is reported as an issue and the
report is not verified. -/
theorem C8_counterexample :
    let rep : CitationReport := { query := "q", citations := [{ quote := "alpha beta" }] }
    let data : List String := ["alpha gamma"]
    2 * interCount data { quote := "alpha beta" } = (wordSet "alpha beta").length
    ∧ (rep.verify data).verified = false
    ∧ (rep.verify data).verification_issues = ["Ref 0.0: Quote not found in record"]
    ∧ (rep.verify data).citations = rep.citations := by
  decide

/-- C8 (amended): verification never removes or alters any citation; the
report becomes verified exactly when every citation passes, where a
citation passes iff its `record_index` is within the record list and the
word-set intersection of its quote with the addressed record's content
covers *strictly more than* 50% of the quote's words (exactly 50% fails,
contrary to the claim's "at least 50%"); every failing citation
contributes exactly one issue line to `verification_issues`. -/
theorem C8_theorem (rep : CitationReport) (data : List String) :
    (rep.verify data).citations = rep.citations
    ∧ (rep.verify data).verification_issues = rep.citations.filterMap (issueOf data)
    ∧ (rep.verify data).verified
        = decide (rep.citations.countP (citationPasses data) = rep.citations.length)
    ∧ (∀ c : Citation, c.record_index < data.length →
        2 * interCount data c = (wordSet c.quote).length →
        citationPasses data c = false) := by
  have hfold := verify_foldl data rep.citations 0 []
  refine ⟨rfl, ?_, ?_, ?_⟩
  · show (rep.citations.foldl (verifyStep data) (0, [])).2 = _
    rw [hfold]
    simp
  · show decide ((rep.citations.foldl (verifyStep data) (0, [])).1
        = rep.citations.length) = _
    rw [hfold]
    simp
  · intro c _ heq
    have hnot : ¬ ((wordSet c.quote).length < 2 * interCount data c) := by omega
    simp [citationPasses, quoteOverlapPasses, hnot]

/-- Witness for `C8_theorem`: the concrete exactly-50%-overlap citation
is preserved in the report and fails the passing test. -/
theorem C8_witness :
    (({ query := "q", citations := [{ quote := "alpha beta" }] } : CitationReport).verify
        ["alpha gamma"]).citations = [{ quote := "alpha beta" }]
    ∧ citationPasses ["alpha gamma"] { quote := "alpha beta" } = false :=
  ⟨(C8_theorem { query := "q", citations := [{ quote := "alpha beta" }] }
      ["alpha gamma"]).1,
   (C8_theorem { query := "q", citations := [{ quote := "alpha beta" }] }
      ["alpha gamma"]).2.2.2 { quote := "alpha beta" } (by decide) (by decide)⟩

/-- C1: the claim is right and the code is wrong.  `record_index` on a
citation produced by `extract_from_response` is always the ordinal
position of the finding within the chunk's output text (the running
`record_idx` counter), never anything derived from the source record —
despite `reference_id`'s own docstring ("This can be used to look up the
original record"), the prompt template's mandated `Record Index` line
(which the parser ignores), and `CitationReport.verify`'s use of
`record_index` to address the original data.  First conjunct: the
ordinal-assignment fact, for every response.  Remaining conjuncts: a
concrete failing input — a chunk output quoting record 1 of the
collection yields a citation with `record_index = 0` and
`reference_id = "0.0"`, which resolves to record 0, a record that does
not contain the quoted excerpt, while record 1 does. -/
theorem C1_theorem :
    (∀ (response : String) (ci : Nat) (fp : Option String),
      (structuredCitations response ci fp).map (fun c => c.record_index)
        = List.range (structuredCitations response ci fp).length)
    ∧ (let records : List String := ["the pricing is too high", "shipping was fast"]
       let response := "### Finding 1\n> \"shipping was fast\"\n**Source:** @bob | 2024-01-02 | #general\n"
       let cs := extract_from_response response 0 none
       cs.length = 1
       ∧ (cs.headD { quote := "" }).record_index = 0
       ∧ (cs.headD { quote := "" }).reference_id = "0.0"
       ∧ (cs.headD { quote := "" }).quote = "shipping was fast"
       ∧ pyIn (cs.headD { quote := "" }).quote (records.getD 0 "") = false
       ∧ pyIn (cs.headD { quote := "" }).quote (records.getD 1 "") = true) := by
  constructor
  · intro response ci fp
    unfold structuredCitations
    rw [List.map_map, List.length_map, List.enum_length]
    exact List.enum_map_fst _
  · decide

/-! ## Core (`core.py`): the top-level query boundary -/

/-- `core.VerificationResult` with its dataclass defaults. -/
structure VerificationResult where
  has_citations : Bool := false
  citations_found : Nat := 0
  citations_verified : Nat := 0
  unique_authors : Nat := 0
  positive_mentions : Nat := 0
  negative_mentions : Nat := 0
  neutral_mentions : Nat := 0
  issues : List String := []
  reference_ids : List String := []
deriving Repr, DecidableEq

/-- `executor.ExecutionResult` (the wall-clock `total_duration_ms` is
not modelled). -/
structure ExecutionResult where
  query : String
  success : Bool
  chunk_results : List ChunkResult := []
  aggregated_content : String := ""
  total_chunks : Nat := 0
  chunks_processed : Nat := 0
  chunks_filtered : Nat := 0
  chunks_cached : Nat := 0
  total_tokens : Nat := 0
  error : Option String := none
deriving Repr

/-- `core.QueryResult` (the wall-clock `duration_ms` is not modelled). -/
structure QueryResult where
  answer : String
  success : Bool
  query : String
  file_path : Option String := none
  chunks_processed : Nat := 0
  chunks_filtered : Nat := 0
  total_tokens : Nat := 0
  trace : Option ExecutionTrace := none
  citation_report : Option CitationReport := none
  verification : Option VerificationResult := none
  error : Option String := none
deriving Repr

/-- The string payload of the `QueryIntent` Python enum
(`plan.intent.value`). -/
def QueryIntent.value : QueryIntent → String
  | QueryIntent.SEARCH => "search"
  | QueryIntent.SUMMARIZE => "summarize"
  | QueryIntent.COUNT => "count"
  | QueryIntent.ANALYZE => "analyze"
  | QueryIntent.EXTRACT => "extract"
  | QueryIntent.COMPARE => "compare"
  | QueryIntent.TIMELINE => "timeline"
  | QueryIntent.EXHAUSTIVE_EXTRACT => "exhaustive"

/-- The `PLAN_END` trace message
(Python: `f"Plan created: \x7bplan.intent.value\x7d, \x7bplan.estimated_chunks or p\x7d chunks"`
with `p` the literal question mark; `or` maps `None` and `0` to it). -/
def planEndMessage (plan : QueryPlan) : String :=
  "Plan created: " ++ plan.intent.value ++ ", "
    ++ (match plan.estimated_chunks with
        | none => "?"
        | some n => if n = 0 then "?" else toString n)
    ++ " chunks"

/-- The downstream phases `JsonExplorer.query` composes, as explicit
functional parameters (in the source they are the planner, chunker,
executor, aggregator and the two verification helpers held by the
explorer object).  The phases the top-level `try` must guard — planning
(`self.planner.plan(query)` plus anything it raises), chunk production
(`list(self.chunker.chunk_from_data(...))`, whose iteration can raise),
and execution (`self.executor.execute(...)`) — are `Except`-valued; a
raising `execute` carries out the trace as mutated up to the raise,
because Python mutates the trace object in place and `except` sees those
entries.  `aggregate` and the two verification phases match total code:
`_hierarchical_aggregate` catches its completion failures internally
(proved under claim C4) and the citation/verification helpers are pure
parsing; `post_process` is `_post_process_answer`. -/
structure QueryPhases where
  plan : Except String QueryPlan
  chunksOf : Except String (List Chunk)
  execute : List Chunk → QueryPlan → ExecutionTrace →
    Except (String × ExecutionTrace) (ExecutionResult × ExecutionTrace)
  aggregate : List ChunkResult → QueryPlan → ExecutionTrace →
    AggregationResult × ExecutionTrace
  extract_and_verify : String → String → List ChunkResult → ExecutionTrace →
    (Option CitationReport × VerificationResult) × ExecutionTrace
  basic_verification : String → String → VerificationResult
  post_process : String → String → VerificationResult → String

/-- The `except Exception` arm of `JsonExplorer.query`: log the error to
the trace, then return the failure `QueryResult` (the trace object in
the result is the same one just mutated by `log_error`). -/
def queryFailResult (queryText : String) (fp : Option String)
    (t : ExecutionTrace) (e : String) : QueryResult :=
  { answer := "Query failed: " ++ e,
    success := false,
    query := queryText,
    file_path := fp,
    error := some e,
    trace := some (t.log_error e) }

/-- `core.JsonExplorer.query` for a loaded collection.  `TraceContext`
builds a fresh trace (its nondeterministic `query_id`/`started_at` are
left at the dataclass defaults) and calls `log_query_start`; then the
phases run under the top-level `try`.  When `aggregated_content` is
falsy the aggregator supplies the answer and its token cost is added;
the aggregator, being a pure phase parameter here, is referenced in
both branches but its output only read in the falsy one.  The answer is
post-processed and stored on the trace before the success result is
assembled. -/
def query (queryText : String) (fp : Option String) (ph : QueryPhases) : QueryResult :=
  let t0 : ExecutionTrace :=
    ExecutionTrace.log_query_start { query := queryText, file_path := fp } queryText fp
  let t1 := t0.add_entry TraceEventType.PLAN_START "Planning query execution"
  match ph.plan with
  | Except.error e => queryFailResult queryText fp t1 e
  | Except.ok plan =>
    let t2 := t1.add_entry TraceEventType.PLAN_END (planEndMessage plan)
    match ph.chunksOf with
    | Except.error e => queryFailResult queryText fp t2 e
    | Except.ok chunks =>
      let t3 := t2.add_entry TraceEventType.INFO
        ("Created " ++ toString chunks.length ++ " chunks from data")
      match ph.execute chunks plan t3 with
      | Except.error et => queryFailResult queryText fp et.2 et.1
      | Except.ok ert =>
        let er := ert.1
        let agg := ph.aggregate er.chunk_results plan ert.2
        let answer0 :=
          if er.aggregated_content ≠ "" then er.aggregated_content else agg.1.content
        let totalTok :=
          if er.aggregated_content ≠ "" then er.total_tokens
          else er.total_tokens + agg.1.tokens_used
        let t4 := if er.aggregated_content ≠ "" then ert.2 else agg.2
        let cv :=
          if plan.intent = QueryIntent.EXHAUSTIVE_EXTRACT then
            ph.extract_and_verify queryText answer0 er.chunk_results t4
          else ((none, ph.basic_verification answer0 queryText), t4)
        let answer := ph.post_process answer0 queryText cv.1.2
        { answer := answer,
          success := er.success,
          query := queryText,
          file_path := fp,
          chunks_processed := er.chunks_processed,
          chunks_filtered := er.chunks_filtered,
          total_tokens := totalTok,
          trace := some { cv.2 with answer := some answer },
          citation_report := cv.1.1,
          verification := some cv.1.2 }

lemma log_error_logged (t : ExecutionTrace) (e : String) :
    (t.log_error e).error = some e
    ∧ ∃ en ∈ (t.log_error e).entries,
        en.event_type = TraceEventType.ERROR ∧ en.message = e := by
  refine ⟨rfl,
    ⟨{ event_type := TraceEventType.ERROR, message := e }, ?_, rfl, rfl⟩⟩
  simp [ExecutionTrace.log_error, ExecutionTrace.add_entry]

/-- C5 (confirmed): the query boundary always hands back a
`QueryResult` — in this model `query` is a total function into
`QueryResult`, mirroring the source's top-level `try/except Exception`
— and whichever guarded phase raises (planning, chunk production, or
execution), the caught failure is logged to the trace as an `ERROR`
entry with the trace's `error` field set, and the result has
`success = false`, `error` populated with the failure description, and
the `"Query failed: ..."` answer.  When every phase succeeds the result
carries the executor's success flag and no error. -/
theorem C5_theorem (queryText : String) (fp : Option String) (e : String)
    (plan : QueryPlan) (chunks : List Chunk) (er : ExecutionResult)
    (ph : QueryPhases) :
    (let r := query queryText fp { ph with plan := Except.error e }
     r.success = false ∧ r.error = some e ∧ r.answer = "Query failed: " ++ e
       ∧ ∃ tr, r.trace = some tr ∧ tr.error = some e
           ∧ ∃ en ∈ tr.entries,
               en.event_type = TraceEventType.ERROR ∧ en.message = e)
    ∧ (let r := query queryText fp
         { ph with plan := Except.ok plan, chunksOf := Except.error e }
       r.success = false ∧ r.error = some e ∧ r.answer = "Query failed: " ++ e
         ∧ ∃ tr, r.trace = some tr ∧ tr.error = some e
             ∧ ∃ en ∈ tr.entries,
                 en.event_type = TraceEventType.ERROR ∧ en.message = e)
    ∧ (let r := query queryText fp
         { ph with plan := Except.ok plan, chunksOf := Except.ok chunks,
                   execute := fun _ _ t => Except.error (e, t) }
       r.success = false ∧ r.error = some e ∧ r.answer = "Query failed: " ++ e
         ∧ ∃ tr, r.trace = some tr ∧ tr.error = some e
             ∧ ∃ en ∈ tr.entries,
                 en.event_type = TraceEventType.ERROR ∧ en.message = e)
    ∧ (let r := query queryText fp
         { ph with plan := Except.ok plan, chunksOf := Except.ok chunks,
                   execute := fun _ _ t => Except.ok (er, t) }
       r.success = er.success ∧ r.error = none ∧ r.query = queryText
         ∧ r.chunks_processed = er.chunks_processed
         ∧ r.chunks_filtered = er.chunks_filtered) := by
  refine ⟨⟨rfl, rfl, rfl, ?_⟩, ⟨rfl, rfl, rfl, ?_⟩, ⟨rfl, rfl, rfl, ?_⟩,
    rfl, rfl, rfl, rfl, rfl⟩
  all_goals
    exact ⟨_, rfl, (log_error_logged _ e).1,
      (log_error_logged _ e).2⟩

end JsonExplorer
